import Mathlib

/-!
The WKT geometry builder, the registry of output formats, the integer output and the
node references of libosmium.

A shallow embedding of `osmium::geom::WKTFactory` (include/osmium/geom/wkt.hpp), of the
data it works on and of the `GeometryFactory` calls that drive it, of
`OutputBlock::output_int` and `OutputFormatFactory`
(include/osmium/io/detail/output_format.hpp) and of `Way::update_node_location`
(include/osmium/osm/way.hpp), together with the properties proved about them.

Conventions of the embedding:

* a C++ member function that mutates the object takes the object's state and
  returns the new state; one that can also throw returns the pair of its outcome
  (`Except Thrown _`) and the state the object is left in;
* `std::string` is `String`; the texts built here are made of one-byte characters;
* `int` and `int64_t` are an `Int` kept in range by `int32` and `int64` where the
  arithmetic can leave it.
-/

namespace osmium

deriving instance DecidableEq for Except

/-! ## Machine integers -/

/-- Two's-complement wrap of an integer into the range of a 32-bit `int`.
Signed overflow is undefined in C++; the embedding wraps, as the hardware does,
and the theorems that depend on the counter say how many additions they cover. -/
def int32 (z : Int) : Int := (z + 2147483648) % 4294967296 - 2147483648

/-- Two's-complement wrap of an integer into the range of `int64_t`. -/
def int64 (z : Int) : Int :=
  (z + 9223372036854775808) % 18446744073709551616 - 9223372036854775808

/-- The conversion of an integer value to `char`: the character whose code is the
value modulo 256. -/
def to_char (z : Int) : Char := Char.ofNat (z % 256).toNat

/-! ## Locations and node references -/

/-- Modelled from the spec: `osmium::Location` (osmium/osm/location.hpp is not among
the sources): "a pair of signed fixed-precision values representing
longitude/latitude; carries a distinguished undefined sentinel value distinct from
any valid coordinate".  `x` is the longitude and `y` the latitude, both in fixed
precision. -/
structure Location where
  x : Int
  y : Int
deriving DecidableEq, Repr

namespace Location

/-- Modelled from the spec: the coordinate value of the undefined sentinel. -/
def undefined_coordinate : Int := 2147483647

/-- Modelled from the spec: the default-constructed `Location()`, the undefined
sentinel. -/
def undefined : Location := ⟨undefined_coordinate, undefined_coordinate⟩

/-- Modelled from the spec: `explicit operator bool`, true for a location that is
not the undefined sentinel (both coordinates set). -/
def defined (l : Location) : Bool :=
  l.x != undefined_coordinate && l.y != undefined_coordinate

/-- Modelled from the spec: `Location::as_string(iterator, separator)` writes the
longitude text, the separator and the latitude text to the iterator; here it returns
the characters written.  The number formatting `fmt` is a parameter ("numeric
formatting is a pluggable strategy"). -/
def as_string (fmt : Int → String) (l : Location) (separator : Char) : String :=
  fmt l.x ++ String.singleton separator ++ fmt l.y

end Location

/-- The class `osmium::NodeRef` of node_ref.hpp: an id and a location. -/
structure NodeRef where
  m_ref : Int
  m_location : Location
deriving DecidableEq, Repr

namespace NodeRef

/-- The accessor `NodeRef::ref()`. -/
def ref (n : NodeRef) : Int := n.m_ref

/-- The accessor `NodeRef::location()`. -/
def location (n : NodeRef) : Location := n.m_location

/-- The member `NodeRef::positive_ref`: `std::abs(m_ref)`, computed in `int64_t` (the
type `object_id_type`) and returned as `unsigned_object_id_type`, an unsigned 64-bit
integer. -/
def positive_ref (n : NodeRef) : Int :=
  (if n.m_ref < 0 then int64 (-n.m_ref) else n.m_ref) % 18446744073709551616

/-- The operator `<` on node references. -/
def lt (lhs rhs : NodeRef) : Bool := decide (lhs.ref < rhs.ref)

/-- The operator `>` on node references. -/
def gt (lhs rhs : NodeRef) : Bool := decide (lhs.ref > rhs.ref)

/-- The operator `<=` on node references. -/
def le (lhs rhs : NodeRef) : Bool := decide (lhs.ref ≤ rhs.ref)

/-- The operator `>=` on node references. -/
def ge (lhs rhs : NodeRef) : Bool := decide (lhs.ref ≥ rhs.ref)

/-- The operator `==` on node references. -/
def eq (lhs rhs : NodeRef) : Bool := decide (lhs.ref = rhs.ref)

/-- The operator `!=` on node references: `!(lhs == rhs)`. -/
def ne (lhs rhs : NodeRef) : Bool := !(eq lhs rhs)

/-- The functor `location_equal`: node references compared by location. -/
def location_equal (lhs rhs : NodeRef) : Bool := decide (lhs.location = rhs.location)

end NodeRef

/-! ## Outcomes -/

/-- How a call ends when it does not return: `throw geometry_error(what)`, or a
failed `assert`. -/
inductive Thrown where
  | geometry_error (what : String)
  | assertion_failed
deriving DecidableEq, Repr

/-! ## WKTFactory -/

/-- The data members of `WKTFactory`. -/
structure WKTFactory where
  m_str : String
  m_points : Int
  m_in_polygon : Bool
  m_first : Bool
deriving DecidableEq, Repr

namespace WKTFactory

/-- A freshly constructed factory: `m_str {}`, `m_points {0}`,
`m_in_polygon = false`, `m_first = true`. -/
def fresh : WKTFactory := ⟨"", 0, false, true⟩

/-- The assignment `str[str.size()-1] = c` on a non-empty string. -/
def set_last (str : String) (c : Char) : String :=
  ⟨str.data.dropLast ++ [c]⟩

/-- The member `make_point`: the text is built in a local string; no data member is
read or written. -/
def make_point (fmt : Int → String) (f : WKTFactory) (location : Location) :
    String × WKTFactory :=
  ("POINT(" ++ location.as_string fmt ' ' ++ ")", f)

/-- The member `linestring_start`. -/
def linestring_start (f : WKTFactory) : WKTFactory :=
  { f with m_str := "LINESTRING(", m_points := 0 }

/-- The member `linestring_add_location`. -/
def linestring_add_location (fmt : Int → String) (f : WKTFactory)
    (location : Location) : WKTFactory :=
  { f with
    m_str := f.m_str ++ location.as_string fmt ' ' ++ ",",
    m_points := int32 (f.m_points + 1) }

/-- The member `linestring_finish`: with fewer than two points the text is cleared
and `geometry_error` is thrown; otherwise the text is swapped out of the factory
(which keeps the empty string), its last character becomes `)` and it is returned. -/
def linestring_finish (f : WKTFactory) : Except Thrown String × WKTFactory :=
  if f.m_points < 2 then
    (.error (.geometry_error "not enough points for linestring"), { f with m_str := "" })
  else if f.m_str = "" then
    (.error .assertion_failed, f)
  else
    (.ok (set_last f.m_str ')'), { f with m_str := "" })

/-- The member `multipolygon_start`. -/
def multipolygon_start (f : WKTFactory) : WKTFactory :=
  { f with m_str := "MULTIPOLYGON(", m_in_polygon := false }

/-- The member `multipolygon_add_outer_ring`. -/
def multipolygon_add_outer_ring (f : WKTFactory) : WKTFactory :=
  { f with
    m_str := (if f.m_in_polygon then f.m_str ++ "))," else f.m_str) ++ "((",
    m_in_polygon := true,
    m_first := true }

/-- The member `multipolygon_add_inner_ring`. -/
def multipolygon_add_inner_ring (f : WKTFactory) : WKTFactory :=
  { f with m_str := f.m_str ++ "),(", m_first := true }

/-- The member `multipolygon_add_location`. -/
def multipolygon_add_location (fmt : Int → String) (f : WKTFactory)
    (location : Location) : WKTFactory :=
  { f with
    m_str := (if !f.m_first then f.m_str ++ "," else f.m_str) ++ location.as_string fmt ' ',
    m_first := false }

/-- The member `multipolygon_finish`: returns the text followed by `)))`, moved out
of the factory, whose own string is left empty. -/
def multipolygon_finish (f : WKTFactory) : String × WKTFactory :=
  (f.m_str ++ ")))", { f with m_str := "", m_in_polygon := false, m_first := true })

/-- The calls `linestring_add_location(l1)`, ..., `linestring_add_location(ln)` made
one after the other. -/
def linestring_add_locations (fmt : Int → String) (f : WKTFactory)
    (locations : List Location) : WKTFactory :=
  locations.foldl (linestring_add_location fmt) f

/-- The state in which `linestring_finish` is called after `linestring_start` and the
additions of `locations`. -/
def linestring_run (fmt : Int → String) (f : WKTFactory) (locations : List Location) :
    WKTFactory :=
  linestring_add_locations fmt (linestring_start f) locations

/-- One call made on the builder between `multipolygon_start` and
`multipolygon_finish`. -/
inductive multipolygon_call where
  | add_outer_ring
  | add_inner_ring
  | add_location (location : Location)
deriving DecidableEq, Repr

/-- The effect of one such call. -/
def multipolygon_apply (fmt : Int → String) (f : WKTFactory) :
    multipolygon_call → WKTFactory
  | .add_outer_ring => multipolygon_add_outer_ring f
  | .add_inner_ring => multipolygon_add_inner_ring f
  | .add_location location => multipolygon_add_location fmt f location

/-- A sequence of such calls, made one after the other. -/
def multipolygon_calls (fmt : Int → String) (f : WKTFactory)
    (calls : List multipolygon_call) : WKTFactory :=
  calls.foldl (multipolygon_apply fmt) f

end WKTFactory

/-! ## Expected texts -/

/-- The `lon lat` text of a location. -/
def lon_lat (fmt : Int → String) (l : Location) : String := l.as_string fmt ' '

/-- The text `LINESTRING(` + the `lon lat` texts separated by single commas + `)`. -/
def linestring_text (fmt : Int → String) (locations : List Location) : String :=
  "LINESTRING(" ++ ",".intercalate (locations.map (lon_lat fmt)) ++ ")"

/-- The coordinates a linestring is made of, in the words of the claims: with `unique`
one location for each maximal run of consecutive equal locations, in order; without
it every location. -/
def linestring_coordinates (unique : Bool) (locations : List Location) : List Location :=
  if unique then (locations.splitBy (· == ·)).filterMap List.head? else locations

/-- A number formatting for the concrete examples: the decimal text of the
fixed-precision value. -/
def decimal (z : Int) : String := toString z

/-! ## GeometryFactory -/

namespace GeometryFactory

/-- Modelled from the spec: the validity check of the Geometry Builder's
`add_location(loc)`, made by `GeometryFactory` (osmium/geom/factory.hpp, which is not
among the sources) before it hands a location to the private
`linestring_add_location` or `multipolygon_add_location` of the concrete factory,
passed here as `add`: "fails with `UndefinedLocation` if `loc` is the undefined
sentinel".  The failure is a `geometry_error`, the exception type the tests expect;
the concrete factory is not called on that path. -/
def add_location (add : WKTFactory → Location → WKTFactory) (f : WKTFactory)
    (loc : Location) : Except Thrown Unit × WKTFactory :=
  if loc.defined then (.ok (), add f loc)
  else (.error (.geometry_error "location is undefined"), f)

/-- Modelled from the spec: the loop of `create_linestring` over the locations of the
nodes (osmium/geom/factory.hpp is not among the sources).  With `unique` a location
equal to the one added last is skipped ("collapsing consecutive duplicates"); every
other location goes through `add_location`, whose failure ends the loop.  The builder
of wkt.hpp counts one point per `linestring_add_location` call and its
`linestring_finish` takes no options, so the collapsing is done here, before the
addition, which is what the tests of test/t/geom/test_geojson.cpp require (two nodes
at one location fail with `geometry_error` when `unique` is set). -/
def fill_linestring (fmt : Int → String) (unique : Bool) :
    WKTFactory → Option Location → List Location → Except Thrown Unit × WKTFactory
  | f, _, [] => (.ok (), f)
  | f, last_location, l :: ls =>
    if unique && last_location == some l then
      fill_linestring fmt unique f last_location ls
    else
      match add_location (WKTFactory.linestring_add_location fmt) f l with
      | (.ok _, g) => fill_linestring fmt unique g (some l) ls
      | (.error e, g) => (.error e, g)

/-- Modelled from the spec: `create_linestring(nodes, unique, reverse)` of
`GeometryFactory` (osmium/geom/factory.hpp is not among the sources; the tests call it
as `create_linestring(way.nodes(), unique = true, reverse = false)`):
`linestring_start`, the locations of the nodes in order, or in reverse order when
`reverse` is set, and `linestring_finish`. -/
def create_linestring (fmt : Int → String) (f : WKTFactory) (nodes : List NodeRef)
    (unique reverse : Bool) : Except Thrown String × WKTFactory :=
  match fill_linestring fmt unique (WKTFactory.linestring_start f) none
      ((if reverse then nodes.reverse else nodes).map NodeRef.location) with
  | (.ok _, g) => WKTFactory.linestring_finish g
  | (.error e, g) => (.error e, g)

/-- Modelled from the spec: `create_point(location)` of `GeometryFactory`
(osmium/geom/factory.hpp is not among the sources; the tests `point` and `empty_point`
call it): the undefined location fails with `geometry_error`, every other location is
handed to `make_point` of the concrete factory. -/
def create_point (fmt : Int → String) (f : WKTFactory) (location : Location) :
    Except Thrown String × WKTFactory :=
  if location.defined then
    (.ok (WKTFactory.make_point fmt f location).1, (WKTFactory.make_point fmt f location).2)
  else (.error (.geometry_error "location is undefined"), f)

end GeometryFactory

/-! ## Way -/

/-- Modelled from the spec: `NodeRef::set_location`, which way.hpp calls; node_ref.hpp
has this setter under the name `location(const Location&)`: `m_location = location`. -/
def NodeRef.set_location (n : NodeRef) (location : Location) : NodeRef :=
  { n with m_location := location }

/-- The class `osmium::Way` of way.hpp, reduced to its `WayNodeList`, the only part
`update_node_location` reaches. -/
structure Way where
  nodes : List NodeRef
deriving DecidableEq, Repr

/-- The member `Way::update_node_location`: the loop over `nodes()`. -/
def Way.update_node_location (w : Way) (new_node_ref : NodeRef) : Way :=
  { w with
    nodes := w.nodes.map fun node_ref =>
      if node_ref.ref = new_node_ref.ref then node_ref.set_location new_node_ref.location
      else node_ref }

/-! ## OutputBlock -/

namespace OutputBlock

/-- The first loop of `output_int`,
`do { *t++ = char(value % 10) + '0'; value /= 10; } while (value > 0);`, on the
characters of `temp` written so far.  `room` is the number of characters of
`char temp[20]` still free; a write with no room left is a write past the end of the
array and gives `none`. -/
def output_int_digits : Nat → Int → List Char → Option (List Char)
  | 0, _, _ => none
  | room + 1, value, temp =>
    if value.tdiv 10 > 0 then
      output_int_digits room (value.tdiv 10) (temp ++ [to_char (value.tmod 10 + 48)])
    else some (temp ++ [to_char (value.tmod 10 + 48)])

/-- The end of `output_int`: `resize` adds one NUL character per digit, and the second
loop, `do { *data++ += *--t; } while (t != temp);`, adds the digits to them, the last
one written first. -/
def output_int_copy (temp : List Char) : List Char :=
  List.zipWith (fun data t => to_char (data.toNat + t.toNat))
    (List.replicate temp.length (Char.ofNat 0)) temp.reverse

/-- The member `OutputBlock::output_int`, on the string `*m_out`. -/
def output_int (m_out : String) (value : Int) : Option String :=
  (output_int_digits 20 (if value < 0 then int64 (-value) else value) []).map fun temp =>
    (if value < 0 then m_out.push '-' else m_out) ++ String.mk (output_int_copy temp)

end OutputBlock

/-! ## OutputFormatFactory -/

/-- Modelled from the spec: `osmium::io::File` (osmium/io/file.hpp is not among the
sources), reduced to what `create_output` reads of it: `filename()` and `format()`.
`F` stands for the enumeration `file_format`, whose declaration is not among the
sources either. -/
structure File (F : Type) where
  filename : String
  format : F

/-- The exception `unsupported_file_format_error` with its message. -/
structure unsupported_file_format_error where
  what : String
deriving DecidableEq, Repr

/-- The type `create_output_type`, a
`std::function<OutputFormat*(Pool&, const File&, future_string_queue_type&)>`: `none`
is the empty function.  A call may change whatever it reaches (pool, queue, heap):
this is the state `W`, which the call takes and gives back together with the
`OutputFormat*` it returns, of type `E`. -/
def create_output_type (F P Q E W : Type) : Type :=
  Option (P → File F → Q → W → E × W)

/-- The class `OutputFormatFactory`: the array `m_callbacks`, which has one slot for
each `file_format`. -/
structure OutputFormatFactory (F P Q E W : Type) where
  m_callbacks : F → create_output_type F P Q E W

namespace OutputFormatFactory

/-- The factory as constructed: every slot holds the empty function. -/
def empty (F P Q E W : Type) : OutputFormatFactory F P Q E W := ⟨fun _ => none⟩

/-- The accessor `callbacks(format)`. -/
def callbacks {F P Q E W : Type} (fac : OutputFormatFactory F P Q E W) (format : F) :
    create_output_type F P Q E W :=
  fac.m_callbacks format

/-- The member `register_output_format`: the slot of `format` is assigned, `true` is
returned. -/
def register_output_format {F P Q E W : Type} [DecidableEq F]
    (fac : OutputFormatFactory F P Q E W) (format : F)
    (create_function : create_output_type F P Q E W) :
    Bool × OutputFormatFactory F P Q E W :=
  (true, ⟨fun g => if g = format then create_function else fac.m_callbacks g⟩)

/-- The member `create_output`.  `as_string` is the text of a `file_format`
(osmium/io/file_format.hpp, not among the sources). -/
def create_output {F P Q E W : Type} (as_string : F → String)
    (fac : OutputFormatFactory F P Q E W) (pool : P) (file : File F) (output_queue : Q)
    (w : W) : Except unsupported_file_format_error E × W :=
  match fac.callbacks file.format with
  | some func => (.ok (func pool file output_queue w).1, (func pool file output_queue w).2)
  | none =>
    (.error ⟨"Can not open file '" ++ file.filename ++ "' with type '"
        ++ as_string file.format
        ++ "'. No support for writing this format in this program."⟩, w)

end OutputFormatFactory

end osmium

namespace osmium

/-! ## Lemmas on texts -/

theorem intercalate_go_eq (s : String) (xs : List String) (acc : String) :
    String.intercalate.go acc s xs = acc ++ String.intercalate.go "" s xs := by
  induction xs generalizing acc with
  | nil => simp [String.intercalate.go]
  | cons x xs ih =>
    simp only [String.intercalate.go]
    rw [ih (acc ++ s ++ x), ih ("" ++ s ++ x)]
    simp [String.append_assoc]

theorem intercalate_cons_cons (s a b : String) (r : List String) :
    s.intercalate (a :: b :: r) = a ++ s ++ s.intercalate (b :: r) := by
  simp only [String.intercalate, String.intercalate.go]
  rw [intercalate_go_eq s r (a ++ s ++ b), intercalate_go_eq s r b]
  simp [String.append_assoc]

theorem intercalate_singleton (s a : String) : s.intercalate [a] = a := by
  simp [String.intercalate, String.intercalate.go]

theorem set_last_append_singleton (s : String) (c d : Char) :
    WKTFactory.set_last (s ++ String.singleton c) d = s ++ String.singleton d := by
  apply String.ext
  simp [WKTFactory.set_last, String.singleton]

theorem set_last_comma (s : String) : WKTFactory.set_last (s ++ ",") ')' = s ++ ")" :=
  set_last_append_singleton s ',' ')'

theorem append_comma_ne_empty (s : String) : s ++ "," ≠ "" := by
  intro h
  have h1 := congrArg String.length h
  simp only [String.length_append] at h1
  have h2 : ",".length = 1 := by decide
  have h3 : "".length = 0 := by decide
  omega

theorem int32_of_range (z : Int) (h0 : -2147483648 ≤ z) (h1 : z < 2147483648) :
    int32 z = z := by
  unfold int32; omega

/-! ## Lemmas on the linestring calls -/

namespace WKTFactory

theorem add_locations_nil (fmt : Int → String) (f : WKTFactory) :
    linestring_add_locations fmt f [] = f := rfl

theorem add_locations_cons (fmt : Int → String) (f : WKTFactory) (l : Location)
    (ls : List Location) :
    linestring_add_locations fmt f (l :: ls)
      = linestring_add_locations fmt (linestring_add_location fmt f l) ls := rfl

theorem add_locations_m_points (fmt : Int → String) (ls : List Location) (f : WKTFactory)
    (h0 : 0 ≤ f.m_points) (h1 : f.m_points + ls.length < 2147483648) :
    (linestring_add_locations fmt f ls).m_points = f.m_points + ls.length := by
  induction ls generalizing f with
  | nil => simp [add_locations_nil]
  | cons l ls ih =>
    rw [add_locations_cons]
    have hl : ((l :: ls).length : Int) = ls.length + 1 := by simp
    rw [hl] at h1
    have hp : (linestring_add_location fmt f l).m_points = f.m_points + 1 := by
      simp only [linestring_add_location]
      exact int32_of_range _ (by omega) (by omega)
    rw [ih _ (by rw [hp]; omega) (by rw [hp]; omega), hp, hl]
    omega

/-- The counter after a series of additions depends only on the counter before and on
the number of additions. -/
theorem add_locations_m_points_congr (fmt : Int → String) (ls ls' : List Location)
    (f f' : WKTFactory) (hp : f.m_points = f'.m_points) (hl : ls.length = ls'.length) :
    (linestring_add_locations fmt f ls).m_points
      = (linestring_add_locations fmt f' ls').m_points := by
  induction ls generalizing f f' ls' with
  | nil =>
    cases ls' with
    | nil => simpa [add_locations_nil] using hp
    | cons b r => simp at hl
  | cons l ls ih =>
    cases ls' with
    | nil => simp at hl
    | cons b r =>
      rw [add_locations_cons, add_locations_cons]
      apply ih
      · simp [linestring_add_location, hp]
      · simpa using hl

theorem add_locations_m_str (fmt : Int → String) (ls : List Location) (f : WKTFactory)
    (hne : ls ≠ []) :
    (linestring_add_locations fmt f ls).m_str
      = f.m_str ++ ",".intercalate (ls.map (lon_lat fmt)) ++ "," := by
  induction ls generalizing f with
  | nil => exact absurd rfl hne
  | cons l ls ih =>
    rw [add_locations_cons]
    cases ls with
    | nil => simp [add_locations_nil, linestring_add_location, intercalate_singleton, lon_lat]
    | cons b r =>
      rw [ih _ (by simp)]
      simp only [List.map_cons, intercalate_cons_cons, linestring_add_location, lon_lat]
      simp [String.append_assoc]

theorem linestring_run_m_points (fmt : Int → String) (f : WKTFactory)
    (locations : List Location) (hmax : locations.length < 2147483648) :
    (linestring_run fmt f locations).m_points = locations.length := by
  unfold linestring_run
  rw [add_locations_m_points fmt locations _ (by simp [linestring_start])
    (by simp only [linestring_start]; omega)]
  simp [linestring_start]

theorem linestring_run_m_str (fmt : Int → String) (f : WKTFactory)
    (locations : List Location) (hne : locations ≠ []) :
    (linestring_run fmt f locations).m_str
      = "LINESTRING(" ++ ",".intercalate (locations.map (lon_lat fmt)) ++ "," := by
  unfold linestring_run
  rw [add_locations_m_str fmt locations _ hne]
  simp [linestring_start]

theorem linestring_finish_of_lt (f : WKTFactory) (h : f.m_points < 2) :
    linestring_finish f
      = (.error (.geometry_error "not enough points for linestring"),
          { f with m_str := "" }) := by
  simp [linestring_finish, h]

theorem linestring_finish_of_ge (f : WKTFactory) (s : String) (h : 2 ≤ f.m_points)
    (hs : f.m_str = s ++ ",") :
    linestring_finish f = (.ok (s ++ ")"), { f with m_str := "" }) := by
  have h1 : ¬ f.m_points < 2 := by omega
  simp [linestring_finish, h1, hs, append_comma_ne_empty, set_last_comma]

/-- The outcome of `linestring_finish` after `linestring_start` and any additions, in
terms of the counter. -/
theorem linestring_finish_run_counter (fmt : Int → String) (f : WKTFactory)
    (locations : List Location) :
    (linestring_finish (linestring_run fmt f locations)).1
      = if (linestring_run fmt f locations).m_points < 2
        then .error (.geometry_error "not enough points for linestring")
        else .ok (linestring_text fmt locations) := by
  by_cases h : (linestring_run fmt f locations).m_points < 2
  · rw [linestring_finish_of_lt _ h, if_pos h]
  · have hne : locations ≠ [] := by
      intro h0
      subst h0
      exact h (by simp [linestring_run, add_locations_nil, linestring_start])
    rw [linestring_finish_of_ge _ _ (by omega) (linestring_run_m_str fmt f _ hne), if_neg h]
    rfl

/-- The outcome of `linestring_finish` after `linestring_start` and fewer than 2^31
additions, in terms of the number of additions. -/
theorem linestring_finish_run (fmt : Int → String) (f : WKTFactory)
    (locations : List Location) (hmax : locations.length < 2147483648) :
    (linestring_finish (linestring_run fmt f locations)).1
      = if locations.length < 2
        then .error (.geometry_error "not enough points for linestring")
        else .ok (linestring_text fmt locations) := by
  rw [linestring_finish_run_counter, linestring_run_m_points fmt f locations hmax]
  by_cases h : locations.length < 2
  · rw [if_pos h, if_pos (by omega)]
  · rw [if_neg h, if_neg (by omega)]

end WKTFactory

end osmium

namespace osmium

/-! ## Lemmas on the multipolygon calls -/

namespace WKTFactory

end WKTFactory

end osmium

namespace osmium

/-! ## Lemmas on runs of equal locations -/

theorem splitBy_loop_heads (l : List Location) (a : Location) (g : List Location)
    (gs : List (List Location)) (hg : ∀ x ∈ g, x = a) :
    (List.splitBy.loop (· == ·) l a g gs).filterMap List.head?
      = gs.reverse.filterMap List.head? ++ List.destutter' (· ≠ ·) a l := by
  induction l generalizing a g gs with
  | nil =>
    have hh : (g.reverse ++ [a]).head? = some a := by
      cases hr : g.reverse with
      | nil => simp
      | cons x xs =>
        have hx : x ∈ g := by
          have : x ∈ g.reverse := by rw [hr]; simp
          simpa using this
        simp [hg x hx]
    simp [List.splitBy.loop, List.filterMap_append, hh]
  | cons b l ih =>
    by_cases hab : a = b
    · subst hab
      have e : List.splitBy.loop (· == ·) (a :: l) a g gs
          = List.splitBy.loop (· == ·) l a (a :: g) gs := by
        simp [List.splitBy.loop]
      rw [e, ih a (a :: g) gs (by
        intro x hx
        rcases List.mem_cons.1 hx with h | h
        · exact h
        · exact hg x h)]
      rw [List.destutter'_cons_neg _ (by simp)]
    · have e : List.splitBy.loop (· == ·) (b :: l) a g gs
          = List.splitBy.loop (· == ·) l b [] ((a :: g).reverse :: gs) := by
        have hb : (a == b) = false := by simpa using hab
        simp [List.splitBy.loop, hb]
      have hh : (g.reverse ++ [a]).head? = some a := by
        cases hr : g.reverse with
        | nil => simp
        | cons x xs =>
          have hx : x ∈ g := by
            have : x ∈ g.reverse := by rw [hr]; simp
            simpa using this
          simp [hg x hx]
      rw [e, ih b [] _ (by simp), List.destutter'_cons_pos _ hab]
      simp [List.filterMap_append, hh]

/-- One location per maximal run of equal consecutive locations is what
`List.destutter` keeps for the relation `≠`. -/
theorem linestring_coordinates_unique (l : List Location) :
    linestring_coordinates true l = l.destutter (· ≠ ·) := by
  cases l with
  | nil => simp [linestring_coordinates, List.splitBy]
  | cons a l =>
    simp only [linestring_coordinates, if_true, List.splitBy]
    rw [splitBy_loop_heads l a [] [] (by simp)]
    simp [List.destutter]

theorem linestring_coordinates_all (l : List Location) :
    linestring_coordinates false l = l := by
  simp [linestring_coordinates]

theorem destutter_cons_cons_ne (a b : Location) (l : List Location) :
    (a :: b :: l).destutter (· ≠ ·)
      = if a ≠ b then a :: (b :: l).destutter (· ≠ ·) else (b :: l).destutter (· ≠ ·) := by
  by_cases h : a = b
  · subst h
    simp [List.destutter, List.destutter']
  · simp [List.destutter, List.destutter', h]

theorem destutter_append_pair (l : List Location) (b a : Location) :
    (l ++ [b, a]).destutter (· ≠ ·)
      = if b ≠ a then (l ++ [b]).destutter (· ≠ ·) ++ [a]
        else (l ++ [b]).destutter (· ≠ ·) := by
  induction l with
  | nil =>
    by_cases h : b = a
    · simp [List.destutter, List.destutter', h]
    · simp [List.destutter, List.destutter', h]
  | cons c l ih =>
    cases l with
    | nil =>
      simp only [List.cons_append, List.nil_append] at ih ⊢
      rw [destutter_cons_cons_ne c b [a], destutter_cons_cons_ne c b [], ih]
      by_cases h1 : c = b <;> by_cases h2 : b = a <;> simp [h1, h2]
    | cons d l =>
      simp only [List.cons_append] at ih ⊢
      rw [destutter_cons_cons_ne c d (l ++ [b, a]), destutter_cons_cons_ne c d (l ++ [b]), ih]
      by_cases h1 : c = d <;> by_cases h2 : b = a <;> simp [h1, h2]

theorem destutter_reverse (l : List Location) :
    l.reverse.destutter (· ≠ ·) = (l.destutter (· ≠ ·)).reverse := by
  induction l with
  | nil => simp
  | cons a l ih =>
    cases l with
    | nil => simp [List.destutter, List.destutter']
    | cons b l =>
      have e : (a :: b :: l).reverse = l.reverse ++ [b, a] := by simp
      have e' : l.reverse ++ [b] = (b :: l).reverse := by simp
      rw [e, destutter_append_pair, e', ih, destutter_cons_cons_ne]
      by_cases h : a = b
      · subst h
        simp
      · have h' : b ≠ a := fun hc => h hc.symm
        simp [h, h']

theorem destutter'_eq_cons_tail (l : List Location) (a : Location) :
    List.destutter' (· ≠ ·) a l = a :: (List.destutter' (· ≠ ·) a l).tail := by
  induction l generalizing a with
  | nil => rfl
  | cons b l ih =>
    by_cases h : a = b
    · rw [List.destutter'_cons_neg _ (by simpa using h)]
      exact ih a
    · rw [List.destutter'_cons_pos _ h]
      rfl

theorem linestring_coordinates_reverse (unique : Bool) (l : List Location) :
    linestring_coordinates unique l.reverse = (linestring_coordinates unique l).reverse := by
  cases unique with
  | false => simp [linestring_coordinates_all]
  | true => simp [linestring_coordinates_unique, destutter_reverse]

theorem linestring_coordinates_length_le (unique : Bool) (l : List Location) :
    (linestring_coordinates unique l).length ≤ l.length := by
  cases unique with
  | false => simp [linestring_coordinates_all]
  | true =>
    rw [linestring_coordinates_unique]
    exact (List.destutter_sublist _ l).length_le

theorem destutter'_length_eq_one (l : List Location) (a : Location) :
    (List.destutter' (· ≠ ·) a l).length = 1 ↔ ∀ b ∈ l, b = a := by
  induction l generalizing a with
  | nil => simp
  | cons b l ih =>
    by_cases h : a = b
    · subst h
      rw [List.destutter'_cons_neg _ (by simp), ih]
      simp
    · rw [List.destutter'_cons_pos _ h]
      have hne : List.destutter' (· ≠ ·) b l ≠ [] := List.destutter'_ne_nil _ _
      have hpos : 0 < (List.destutter' (· ≠ ·) b l).length := List.length_pos.2 hne
      constructor
      · intro hc
        rw [List.length_cons] at hc
        omega
      · intro hc
        exact absurd (hc b (by simp)).symm h

/-- Collapsing leaves at least two locations exactly when two of the locations
differ. -/
theorem two_le_destutter_length (l : List Location) :
    2 ≤ (l.destutter (· ≠ ·)).length ↔ ∃ a ∈ l, ∃ b ∈ l, a ≠ b := by
  cases l with
  | nil => simp
  | cons a l =>
    have hne : List.destutter' (· ≠ ·) a l ≠ [] := List.destutter'_ne_nil _ _
    have hpos : 0 < (List.destutter' (· ≠ ·) a l).length := List.length_pos.2 hne
    have h1 := destutter'_length_eq_one l a
    rw [List.destutter_cons']
    constructor
    · intro h2
      have h3 : ¬ ∀ b ∈ l, b = a := fun hc => by
        have := h1.2 hc
        omega
      push_neg at h3
      obtain ⟨b, hb, hba⟩ := h3
      exact ⟨a, by simp, b, by simp [hb], fun hc => hba hc.symm⟩
    · rintro ⟨x, hx, y, hy, hxy⟩
      by_contra hc
      have h4 : (List.destutter' (· ≠ ·) a l).length = 1 := by omega
      have h5 := h1.1 h4
      have ex : x = a := by
        rcases List.mem_cons.1 hx with h | h
        · exact h
        · exact h5 x h
      have ey : y = a := by
        rcases List.mem_cons.1 hy with h | h
        · exact h
        · exact h5 y h
      exact hxy (ex.trans ey.symm)

end osmium

namespace osmium

/-! ## Lemmas on `GeometryFactory` -/

namespace GeometryFactory

theorem add_location_of_defined (add : WKTFactory → Location → WKTFactory)
    (f : WKTFactory) (l : Location) (h : l.defined = true) :
    add_location add f l = (.ok (), add f l) := by
  simp [add_location, h]

theorem add_location_of_undefined (add : WKTFactory → Location → WKTFactory)
    (f : WKTFactory) (l : Location) (h : l.defined = false) :
    add_location add f l = (.error (.geometry_error "location is undefined"), f) := by
  simp [add_location, h]

theorem fill_linestring_all (fmt : Int → String) (ls : List Location) (f : WKTFactory)
    (last : Option Location) (hd : ∀ l ∈ ls, l.defined = true) :
    fill_linestring fmt false f last ls
      = (.ok (), WKTFactory.linestring_add_locations fmt f ls) := by
  induction ls generalizing f last with
  | nil => rfl
  | cons l ls ih =>
    have hl : l.defined = true := hd l (by simp)
    simp only [fill_linestring, Bool.false_and, Bool.false_eq_true, if_false,
      add_location_of_defined _ _ _ hl]
    rw [ih _ _ (fun x hx => hd x (by simp [hx]))]
    rfl

theorem fill_linestring_unique_some (fmt : Int → String) (ls : List Location)
    (f : WKTFactory) (a : Location) (hd : ∀ l ∈ ls, l.defined = true) :
    fill_linestring fmt true f (some a) ls
      = (.ok (), WKTFactory.linestring_add_locations fmt f
          (List.destutter' (· ≠ ·) a ls).tail) := by
  induction ls generalizing f a with
  | nil => rfl
  | cons l ls ih =>
    have hl : l.defined = true := hd l (by simp)
    have hd' : ∀ x ∈ ls, x.defined = true := fun x hx => hd x (by simp [hx])
    by_cases h : a = l
    · subst h
      simp only [fill_linestring, Bool.true_and, beq_self_eq_true, if_true]
      rw [ih _ _ hd', List.destutter'_cons_neg _ (by simp)]
    · have hb : (some a == some l) = false := by simpa using h
      simp only [fill_linestring, Bool.true_and, hb, Bool.false_eq_true, if_false,
        add_location_of_defined _ _ _ hl]
      rw [ih _ _ hd', List.destutter'_cons_pos _ h]
      have ht := destutter'_eq_cons_tail ls l
      rw [List.tail_cons]
      conv_rhs => rw [ht]
      rfl

theorem fill_linestring_unique (fmt : Int → String) (ls : List Location)
    (f : WKTFactory) (hd : ∀ l ∈ ls, l.defined = true) :
    fill_linestring fmt true f none ls
      = (.ok (), WKTFactory.linestring_add_locations fmt f (ls.destutter (· ≠ ·))) := by
  cases ls with
  | nil => rfl
  | cons l ls =>
    have hl : l.defined = true := hd l (by simp)
    have hb : (none == some l) = false := by rfl
    simp only [fill_linestring, Bool.true_and, hb, Bool.false_eq_true, if_false,
      add_location_of_defined _ _ _ hl]
    rw [fill_linestring_unique_some fmt ls _ l (fun x hx => hd x (by simp [hx])),
      List.destutter_cons']
    conv_rhs => rw [destutter'_eq_cons_tail ls l]
    rfl

/-- With every location defined the loop adds the coordinates of the linestring. -/
theorem fill_linestring_defined (fmt : Int → String) (unique : Bool) (ls : List Location)
    (f : WKTFactory) (hd : ∀ l ∈ ls, l.defined = true) :
    fill_linestring fmt unique f none ls
      = (.ok (), WKTFactory.linestring_add_locations fmt f
          (linestring_coordinates unique ls)) := by
  cases unique with
  | false => rw [fill_linestring_all fmt ls f none hd, linestring_coordinates_all]
  | true => rw [fill_linestring_unique fmt ls f hd, linestring_coordinates_unique]

/-- A location that is not defined makes the loop fail, wherever it stands. -/
theorem fill_linestring_undefined (fmt : Int → String) (unique : Bool)
    (ls : List Location) (f : WKTFactory) (last : Option Location)
    (hlast : ∀ a, last = some a → a.defined = true)
    (hu : ∃ l ∈ ls, l.defined = false) :
    (fill_linestring fmt unique f last ls).1
      = .error (.geometry_error "location is undefined") := by
  induction ls generalizing f last with
  | nil =>
    obtain ⟨l, hl, _⟩ := hu
    simp at hl
  | cons l ls ih =>
    by_cases hdl : l.defined = true
    · have hu' : ∃ x ∈ ls, x.defined = false := by
        obtain ⟨x, hx, hxd⟩ := hu
        rcases List.mem_cons.1 hx with h | h
        · rw [h, hdl] at hxd
          cases hxd
        · exact ⟨x, h, hxd⟩
      by_cases hskip : (unique && last == some l) = true
      · simp only [fill_linestring, hskip, if_true]
        exact ih f last hlast hu'
      · simp only [fill_linestring, hskip, Bool.false_eq_true, if_false,
          add_location_of_defined _ _ _ hdl]
        exact ih _ (some l) (by
          intro a ha
          injection ha with ha
          rw [← ha]
          exact hdl) hu'
    · have hdl' : l.defined = false := by simpa using hdl
      have hskip : ¬ (unique && last == some l) = true := by
        intro hc
        have h2 : (last == some l) = true := by
          cases unique <;> simp_all
        have h3 : last = some l := by simpa using h2
        have := hlast l h3
        rw [hdl'] at this
        cases this
      simp only [fill_linestring, hskip, Bool.false_eq_true, if_false,
        add_location_of_undefined _ _ _ hdl']

theorem fill_linestring_cons (fmt : Int → String) (unique : Bool) (f : WKTFactory)
    (last : Option Location) (l : Location) (ls : List Location) :
    fill_linestring fmt unique f last (l :: ls)
      = if (unique && last == some l) = true then fill_linestring fmt unique f last ls
        else match add_location (WKTFactory.linestring_add_location fmt) f l with
          | (.ok _, g) => fill_linestring fmt unique g (some l) ls
          | (.error e, g) => (.error e, g) := by
  rw [fill_linestring]

/-- The loop over defined locations followed by more locations: the rest is handled
from the state reached, with the last of the defined locations as the one added
last. -/
theorem fill_linestring_append (fmt : Int → String) (unique : Bool)
    (xs ys : List Location) (f : WKTFactory) (last : Option Location)
    (hd : ∀ l ∈ xs, l.defined = true) :
    fill_linestring fmt unique f last (xs ++ ys)
      = fill_linestring fmt unique (fill_linestring fmt unique f last xs).2
          (if xs = [] then last else xs.getLast?) ys := by
  induction xs generalizing f last with
  | nil => rfl
  | cons x xs ih =>
    have hx : x.defined = true := hd x (by simp)
    have hd' : ∀ l ∈ xs, l.defined = true := fun l hl => hd l (by simp [hl])
    have hlast : ∀ o : Option Location, (if xs = [] then some x else xs.getLast?)
        = (if x :: xs = [] then o else (x :: xs).getLast?) := by
      intro o
      cases xs with
      | nil => simp
      | cons y r => simp [List.getLast?_cons_cons]
    by_cases hskip : (unique && last == some x) = true
    · have hl : last = some x := by
        cases unique <;> simp_all
      rw [List.cons_append, fill_linestring_cons, if_pos hskip, fill_linestring_cons,
        if_pos hskip, ih f last hd', ← hlast last, hl]
    · rw [List.cons_append, fill_linestring_cons, if_neg hskip, fill_linestring_cons,
        if_neg hskip, add_location_of_defined _ _ _ hx]
      simp only []
      rw [ih _ (some x) hd', hlast last]

/-- The loop stopped by a location that is not defined: the factory is left as the
locations accepted before it have made it. -/
theorem fill_linestring_stops (fmt : Int → String) (unique : Bool)
    (accepted rest : List Location) (f : WKTFactory) (l : Location)
    (hd : ∀ a ∈ accepted, a.defined = true) (hl : l.defined = false) :
    fill_linestring fmt unique f none (accepted ++ l :: rest)
      = (.error (.geometry_error "location is undefined"),
          WKTFactory.linestring_add_locations fmt f
            (linestring_coordinates unique accepted)) := by
  rw [fill_linestring_append fmt unique accepted (l :: rest) f none hd,
    fill_linestring_defined fmt unique accepted f hd]
  have hskip : ¬ (unique && (if accepted = [] then none else accepted.getLast?) == some l)
      = true := by
    intro hc
    have h2 : ((if accepted = [] then none else accepted.getLast?) == some l) = true := by
      cases unique <;> simp_all
    have h3 : (if accepted = [] then none else accepted.getLast?) = some l := by
      simpa using h2
    by_cases he : accepted = []
    · rw [if_pos he] at h3
      cases h3
    · rw [if_neg he] at h3
      have hm : l ∈ accepted := List.mem_of_getLast?_eq_some h3
      have := hd l hm
      rw [hl] at this
      cases this
  rw [fill_linestring_cons, if_neg hskip, add_location_of_undefined _ _ _ hl]

/-- The outcome of `create_linestring` on nodes whose locations are all defined. -/
theorem create_linestring_defined (fmt : Int → String) (f : WKTFactory)
    (nodes : List NodeRef) (unique reverse : Bool)
    (hd : ∀ n ∈ nodes, n.location.defined = true) :
    create_linestring fmt f nodes unique reverse
      = WKTFactory.linestring_finish
          (WKTFactory.linestring_run fmt f
            (linestring_coordinates unique
              ((if reverse then nodes.reverse else nodes).map NodeRef.location))) := by
  have hd' : ∀ l ∈ (if reverse then nodes.reverse else nodes).map NodeRef.location,
      l.defined = true := by
    intro l hl
    obtain ⟨n, hn, rfl⟩ := List.mem_map.1 hl
    apply hd
    cases reverse
    · simpa using hn
    · simpa using hn
  simp only [create_linestring, fill_linestring_defined fmt unique _ _ hd']
  rfl

/-- The outcome of `create_linestring` on nodes one of which has no defined
location. -/
theorem create_linestring_undefined (fmt : Int → String) (f : WKTFactory)
    (nodes : List NodeRef) (unique reverse : Bool)
    (hu : ∃ n ∈ nodes, n.location.defined = false) :
    (create_linestring fmt f nodes unique reverse).1
      = .error (.geometry_error "location is undefined") := by
  have hu' : ∃ l ∈ (if reverse then nodes.reverse else nodes).map NodeRef.location,
      l.defined = false := by
    obtain ⟨n, hn, hnd⟩ := hu
    refine ⟨n.location, List.mem_map.2 ⟨n, ?_, rfl⟩, hnd⟩
    cases reverse
    · simpa using hn
    · simpa using hn
  have h := fill_linestring_undefined fmt unique _ (WKTFactory.linestring_start f) none
    (by intro a ha; cases ha) hu'
  unfold create_linestring
  generalize fill_linestring fmt unique (WKTFactory.linestring_start f) none
    ((if reverse then nodes.reverse else nodes).map NodeRef.location) = r at h ⊢
  obtain ⟨r1, r2⟩ := r
  simp only at h
  subst h
  rfl

/-- The outcome of `create_linestring` on fewer than 2^31 nodes, the location of each
being defined, in terms of the coordinates of the linestring. -/
theorem create_linestring_outcome (fmt : Int → String) (f : WKTFactory)
    (nodes : List NodeRef) (unique reverse : Bool)
    (hd : ∀ n ∈ nodes, n.location.defined = true) (hmax : nodes.length < 2147483648) :
    (create_linestring fmt f nodes unique reverse).1
      = if (linestring_coordinates unique
              ((if reverse then nodes.reverse else nodes).map NodeRef.location)).length < 2
        then .error (.geometry_error "not enough points for linestring")
        else .ok (linestring_text fmt (linestring_coordinates unique
              ((if reverse then nodes.reverse else nodes).map NodeRef.location))) := by
  rw [create_linestring_defined fmt f nodes unique reverse hd]
  apply WKTFactory.linestring_finish_run
  have h1 := linestring_coordinates_length_le unique
    ((if reverse then nodes.reverse else nodes).map NodeRef.location)
  have h2 : ((if reverse then nodes.reverse else nodes).map NodeRef.location).length
      = nodes.length := by
    cases reverse <;> simp
  omega

end GeometryFactory

end osmium

namespace osmium

/-! ## The cases of test/t/geom/test_geojson.cpp

The coordinates of the tests, with one decimal digit kept (3.2 is 32), given to the
model of `create_linestring` over the WKT builder. -/

/-- The way of the test `linestring`, for the four combinations of `unique` and
`reverse`. -/
theorem test_linestring :
    (GeometryFactory.create_linestring decimal WKTFactory.fresh
        [⟨1, ⟨32, 42⟩⟩, ⟨3, ⟨35, 47⟩⟩, ⟨4, ⟨35, 47⟩⟩, ⟨2, ⟨36, 49⟩⟩] true false).1
        = .ok "LINESTRING(32 42,35 47,36 49)"
      ∧ (GeometryFactory.create_linestring decimal WKTFactory.fresh
        [⟨1, ⟨32, 42⟩⟩, ⟨3, ⟨35, 47⟩⟩, ⟨4, ⟨35, 47⟩⟩, ⟨2, ⟨36, 49⟩⟩] true true).1
        = .ok "LINESTRING(36 49,35 47,32 42)"
      ∧ (GeometryFactory.create_linestring decimal WKTFactory.fresh
        [⟨1, ⟨32, 42⟩⟩, ⟨3, ⟨35, 47⟩⟩, ⟨4, ⟨35, 47⟩⟩, ⟨2, ⟨36, 49⟩⟩] false false).1
        = .ok "LINESTRING(32 42,35 47,35 47,36 49)"
      ∧ (GeometryFactory.create_linestring decimal WKTFactory.fresh
        [⟨1, ⟨32, 42⟩⟩, ⟨3, ⟨35, 47⟩⟩, ⟨4, ⟨35, 47⟩⟩, ⟨2, ⟨36, 49⟩⟩] false true).1
        = .ok "LINESTRING(36 49,35 47,35 47,32 42)" := by
  decide

/-- The test `empty_linestring`: no node, `geometry_error` in the four combinations. -/
theorem test_empty_linestring :
    ∀ unique reverse : Bool,
      (GeometryFactory.create_linestring decimal WKTFactory.fresh [] unique reverse).1
        = .error (.geometry_error "not enough points for linestring") := by
  decide

/-- The test `linestring_with_two_same_locations`. -/
theorem test_linestring_with_two_same_locations :
    (∀ reverse : Bool, (GeometryFactory.create_linestring decimal WKTFactory.fresh
        [⟨1, ⟨35, 47⟩⟩, ⟨2, ⟨35, 47⟩⟩] true reverse).1
        = .error (.geometry_error "not enough points for linestring"))
      ∧ (∀ reverse : Bool, (GeometryFactory.create_linestring decimal WKTFactory.fresh
        [⟨1, ⟨35, 47⟩⟩, ⟨2, ⟨35, 47⟩⟩] false reverse).1
        = .ok "LINESTRING(35 47,35 47)") := by
  decide

/-- The test `linestring_with_undefined_location`. -/
theorem test_linestring_with_undefined_location :
    (GeometryFactory.create_linestring decimal WKTFactory.fresh
        [⟨1, ⟨35, 47⟩⟩, ⟨2, Location.undefined⟩] true false).1
      = .error (.geometry_error "location is undefined") := by
  decide

end osmium

namespace osmium

/-! ## Lemmas on sequences of multipolygon calls -/

namespace WKTFactory

/-- What the multipolygon calls read and write: the text and the two flags.  The
point counter is not among them. -/
theorem multipolygon_apply_congr (fmt : Int → String) (f g : WKTFactory)
    (c : multipolygon_call) (hs : f.m_str = g.m_str)
    (hp : f.m_in_polygon = g.m_in_polygon) (hf : f.m_first = g.m_first) :
    (multipolygon_apply fmt f c).m_str = (multipolygon_apply fmt g c).m_str
      ∧ (multipolygon_apply fmt f c).m_in_polygon = (multipolygon_apply fmt g c).m_in_polygon
      ∧ (multipolygon_apply fmt f c).m_first = (multipolygon_apply fmt g c).m_first := by
  cases c with
  | add_outer_ring => simp [multipolygon_apply, multipolygon_add_outer_ring, hs, hp]
  | add_inner_ring => simp [multipolygon_apply, multipolygon_add_inner_ring, hs, hp]
  | add_location l => simp [multipolygon_apply, multipolygon_add_location, hs, hp, hf]

theorem multipolygon_calls_congr (fmt : Int → String) (calls : List multipolygon_call)
    (f g : WKTFactory) (hs : f.m_str = g.m_str)
    (hp : f.m_in_polygon = g.m_in_polygon) (hf : f.m_first = g.m_first) :
    (multipolygon_calls fmt f calls).m_str = (multipolygon_calls fmt g calls).m_str := by
  induction calls generalizing f g with
  | nil => exact hs
  | cons c cs ih =>
    have h := multipolygon_apply_congr fmt f g c hs hp hf
    exact ih _ _ h.1 h.2.1 h.2.2

/-- A ring call sets `m_first`, so that after it the flag left by earlier calls no
longer matters. -/
theorem multipolygon_apply_ring_congr (fmt : Int → String) (f g : WKTFactory)
    (c : multipolygon_call) (hc : ∀ l, c ≠ .add_location l) (hs : f.m_str = g.m_str)
    (hp : f.m_in_polygon = g.m_in_polygon) :
    (multipolygon_apply fmt f c).m_str = (multipolygon_apply fmt g c).m_str
      ∧ (multipolygon_apply fmt f c).m_in_polygon = (multipolygon_apply fmt g c).m_in_polygon
      ∧ (multipolygon_apply fmt f c).m_first = (multipolygon_apply fmt g c).m_first := by
  cases c with
  | add_outer_ring => simp [multipolygon_apply, multipolygon_add_outer_ring, hs, hp]
  | add_inner_ring => simp [multipolygon_apply, multipolygon_add_inner_ring, hs, hp]
  | add_location l => exact absurd rfl (hc l)

/-- Once a polygon is open it stays open until `multipolygon_finish`. -/
theorem multipolygon_calls_in_polygon (fmt : Int → String)
    (calls : List multipolygon_call) (f : WKTFactory) (hp : f.m_in_polygon = true) :
    (multipolygon_calls fmt f calls).m_in_polygon = true := by
  induction calls generalizing f with
  | nil => exact hp
  | cons c cs ih =>
    apply ih
    cases c with
    | add_outer_ring => simp [multipolygon_apply, multipolygon_add_outer_ring]
    | add_inner_ring => simp [multipolygon_apply, multipolygon_add_inner_ring, hp]
    | add_location l => simp [multipolygon_apply, multipolygon_add_location, hp]

end WKTFactory

end osmium

namespace osmium

/-! ## Lemmas on `output_int` -/

theorem int64_of_range (z : Int) (h0 : -9223372036854775808 ≤ z)
    (h1 : z < 9223372036854775808) : int64 z = z := by
  unfold int64; omega

theorem char_toNat_ofNat (n : Nat) (h : n < 256) : (Char.ofNat n).toNat = n := by
  have hv : n.isValidChar := Or.inl (by omega)
  simp only [Char.ofNat, hv, dite_true, Char.toNat, Char.ofNatAux]
  simp [UInt32.toNat]

/-- Adding a character made by `to_char` to the NUL character gives that character. -/
theorem to_char_add_nul (z : Int) :
    to_char (((Char.ofNat 0).toNat : Int) + ((to_char z).toNat : Int)) = to_char z := by
  have h0 : (Char.ofNat 0).toNat = 0 := char_toNat_ofNat 0 (by omega)
  have hz : (z % 256).toNat < 256 := by omega
  have h1 : (to_char z).toNat = (z % 256).toNat := char_toNat_ofNat _ hz
  rw [h0, h1]
  unfold to_char
  congr 1
  omega

theorem to_char_digit (n : Nat) (h : n < 10) : to_char ((n : Int) + 48) = Nat.digitChar n := by
  interval_cases n <;> rfl

namespace OutputBlock

theorem zipWith_replicate_nul (l : List Char) (hl : ∀ c ∈ l, ∃ z, c = to_char z) :
    List.zipWith (fun data t => to_char ((data.toNat : Int) + (t.toNat : Int)))
      (List.replicate l.length (Char.ofNat 0)) l = l := by
  induction l with
  | nil => rfl
  | cons c l ih =>
    obtain ⟨z, hz⟩ := hl c (by simp)
    simp only [List.length_cons, List.replicate_succ, List.zipWith_cons_cons]
    rw [ih (fun x hx => hl x (by simp [hx])), hz, to_char_add_nul]

/-- The second loop copies the characters written by the first, last one first. -/
theorem output_int_copy_eq (temp : List Char) (hl : ∀ c ∈ temp, ∃ z, c = to_char z) :
    output_int_copy temp = temp.reverse := by
  unfold output_int_copy
  have h := zipWith_replicate_nul temp.reverse (by
    intro c hc
    exact hl c (by simpa using hc))
  rw [List.length_reverse] at h
  exact h

theorem output_int_digits_succ (room : Nat) (value : Int) (temp : List Char) :
    output_int_digits (room + 1) value temp
      = if value.tdiv 10 > 0 then
          output_int_digits room (value.tdiv 10) (temp ++ [to_char (value.tmod 10 + 48)])
        else some (temp ++ [to_char (value.tmod 10 + 48)]) := by
  rw [output_int_digits]

/-- The first loop on a value from 0 to 10^(room+1) - 1: it ends with at most room+1
characters written after those of `temp`, the decimal digits of the value, lowest
first, which are the digits that `Nat.toDigitsCore` puts in front of its accumulator. -/
theorem output_int_digits_spec (room : Nat) :
    ∀ (n : Nat) (temp : List Char), n < 10 ^ (room + 1) →
      ∃ L : List Char, output_int_digits (room + 1) (n : Int) temp = some (temp ++ L)
        ∧ 1 ≤ L.length ∧ L.length ≤ room + 1
        ∧ (∀ c ∈ L, ∃ z, c = to_char z)
        ∧ ∀ (fuel : Nat) (ds : List Char), n < fuel →
            Nat.toDigitsCore 10 fuel n ds = L.reverse ++ ds := by
  induction room with
  | zero =>
    intro n temp hn
    have hn' : n < 10 := by simpa using hn
    have hd : ((n : Int).tdiv 10) = ((n / 10 : Nat) : Int) := by
      rw [Int.tdiv_eq_ediv (by omega) (by omega)]; omega
    have hm : ((n : Int).tmod 10) = ((n % 10 : Nat) : Int) := by
      rw [Int.tmod_eq_emod (by omega) (by omega)]; omega
    have h0 : n / 10 = 0 := by omega
    refine ⟨[to_char ((n : Int).tmod 10 + 48)], ?_, by simp, by simp, ?_, ?_⟩
    · rw [output_int_digits_succ, hd, h0]
      simp
    · intro c hc
      exact ⟨_, by simpa using hc⟩
    · intro fuel ds hf
      cases fuel with
      | zero => omega
      | succ k =>
        rw [hm, to_char_digit _ (by omega)]
        simp [Nat.toDigitsCore, h0]
  | succ room ih =>
    intro n temp hn
    have hd : ((n : Int).tdiv 10) = ((n / 10 : Nat) : Int) := by
      rw [Int.tdiv_eq_ediv (by omega) (by omega)]; omega
    have hm : ((n : Int).tmod 10) = ((n % 10 : Nat) : Int) := by
      rw [Int.tmod_eq_emod (by omega) (by omega)]; omega
    by_cases h0 : n / 10 = 0
    · refine ⟨[to_char ((n : Int).tmod 10 + 48)], ?_, by simp, by simp, ?_, ?_⟩
      · rw [output_int_digits_succ, hd, h0]
        simp
      · intro c hc
        exact ⟨_, by simpa using hc⟩
      · intro fuel ds hf
        cases fuel with
        | zero => omega
        | succ k =>
          rw [hm, to_char_digit _ (by omega)]
          simp [Nat.toDigitsCore, h0]
    · have hlt : n / 10 < 10 ^ (room + 1) := by
        have h10 : (10 : Nat) ^ (room + 1 + 1) = 10 ^ (room + 1) * 10 := by ring
        rw [h10] at hn
        exact Nat.div_lt_of_lt_mul (by omega)
      obtain ⟨L, hL, h1, h2, h3, h4⟩ :=
        ih (n / 10) (temp ++ [to_char ((n : Int).tmod 10 + 48)]) hlt
      refine ⟨to_char ((n : Int).tmod 10 + 48) :: L, ?_, by simp, ?_, ?_, ?_⟩
      · rw [output_int_digits_succ, hd, if_pos (by omega), hL]
        simp
      · simp only [List.length_cons]
        omega
      · intro c hc
        rcases List.mem_cons.1 hc with h | h
        · exact ⟨_, h⟩
        · exact h3 c h
      · intro fuel ds hf
        cases fuel with
        | zero => omega
        | succ k =>
          have hk : n / 10 < k := by omega
          rw [hm, to_char_digit _ (by omega)]
          simp only [Nat.toDigitsCore, h0, if_false]
          rw [h4 k _ hk]
          simp

/-- The decimal text of a natural number below 10^19 as made by the two loops. -/
theorem output_int_digits_repr (n : Nat) (hn : n < 10 ^ 19) :
    ∃ temp : List Char, output_int_digits 20 (n : Int) [] = some temp
      ∧ 1 ≤ temp.length ∧ temp.length ≤ 19
      ∧ output_int_copy temp = temp.reverse
      ∧ String.mk temp.reverse = toString n := by
  obtain ⟨L, hL, h1, h2, h3, h4⟩ := output_int_digits_spec 18 n [] hn
  have hL' : output_int_digits 20 (n : Int) [] = some L := by
    have hmono : ∀ (room : Nat) (v : Int) (t r : List Char),
        output_int_digits room v t = some r → output_int_digits (room + 1) v t = some r := by
      intro room
      induction room with
      | zero =>
        intro v t r h
        simp [output_int_digits] at h
      | succ k ihk =>
        intro v t r h
        rw [output_int_digits_succ] at h ⊢
        by_cases hv : v.tdiv 10 > 0
        · rw [if_pos hv] at h ⊢
          exact ihk _ _ _ h
        · rw [if_neg hv] at h ⊢
          exact h
    exact hmono 19 _ _ _ (by simpa using hL)
  refine ⟨L, hL', h1, h2, output_int_copy_eq L h3, ?_⟩
  have h5 := h4 (n + 1) [] (by omega)
  show String.mk L.reverse = (Nat.toDigits 10 n).asString
  unfold Nat.toDigits
  rw [h5]
  simp [List.asString]

end OutputBlock

end osmium

namespace osmium

namespace OutputBlock

theorem push_minus_append (m_out s : String) : m_out.push '-' ++ s = m_out ++ ("-" ++ s) := by
  apply String.ext
  simp

/-- The value that the loops of `output_int` work on, for an argument other than the
least `int64_t`: its absolute value, below 10^19. -/
theorem output_int_magnitude (value : Int) (h0 : -9223372036854775808 < value)
    (h1 : value < 9223372036854775808) :
    (if value < 0 then int64 (-value) else value) = (value.natAbs : Int)
      ∧ value.natAbs < 10 ^ 19 := by
  by_cases h : value < 0
  · rw [if_pos h, int64_of_range _ (by omega) (by omega)]
    constructor <;> omega
  · rw [if_neg h]
    constructor <;> omega

/-- For every argument other than the least `int64_t`, `output_int` appends the decimal
text of the argument to the output. -/
theorem output_int_decimal (m_out : String) (value : Int)
    (h0 : -9223372036854775808 < value) (h1 : value < 9223372036854775808) :
    output_int m_out value = some (m_out ++ toString value) := by
  obtain ⟨hm, hn⟩ := output_int_magnitude value h0 h1
  obtain ⟨temp, ht, _, _, hc, hr⟩ := output_int_digits_repr value.natAbs hn
  unfold output_int
  rw [hm, ht, Option.map_some', hc, hr]
  congr 1
  cases value with
  | ofNat n =>
    have hneg : ¬ (Int.ofNat n < 0) := by
      intro hc
      exact absurd hc (by simp)
    rw [if_neg hneg]
    rfl
  | negSucc m =>
    have hneg : Int.negSucc m < 0 := Int.negSucc_lt_zero m
    rw [if_pos hneg, push_minus_append]
    rfl

end OutputBlock

end osmium

namespace osmium

/-! ## Linestring: the text returned, and when the builder fails -/

/-- C1: for every prior state of the factory and every list of at least two locations
(fewer than 2^31 of them, the range of the `int` counter `m_points`),
`linestring_start`, one `linestring_add_location` per location and `linestring_finish`
return exactly `LINESTRING(` + the `lon lat` texts of the locations, in the order of the
additions, separated by single commas + `)`: each addition contributes its text once,
equal neighbours included, and nothing is reordered. -/
theorem linestring_returns_exact_text (fmt : Int → String) (f : WKTFactory)
    (locations : List Location) (h2 : 2 ≤ locations.length)
    (hmax : locations.length < 2147483648) :
    (WKTFactory.linestring_finish
        (WKTFactory.linestring_add_locations fmt (WKTFactory.linestring_start f)
          locations)).1
      = .ok ("LINESTRING("
          ++ ",".intercalate (locations.map fun l => l.as_string fmt ' ') ++ ")") := by
  have h := WKTFactory.linestring_finish_run fmt f locations hmax
  rw [if_neg (by omega)] at h
  exact h

/-- C1 at a concrete input: a used factory and three locations, two of them equal. -/
theorem linestring_returns_exact_text_witness :
    (WKTFactory.linestring_finish
        (WKTFactory.linestring_add_locations decimal
          (WKTFactory.linestring_start ⟨"MULTIPOLYGON(((1 2", 7, true, false⟩)
          [⟨35, 47⟩, ⟨35, 47⟩, ⟨32, 42⟩])).1
      = .ok "LINESTRING(35 47,35 47,32 42)" :=
  linestring_returns_exact_text decimal ⟨"MULTIPOLYGON(((1 2", 7, true, false⟩
    [⟨35, 47⟩, ⟨35, 47⟩, ⟨32, 42⟩] (by decide) (by decide)

/-- C2: after `linestring_start` and the additions of `locations` (fewer than 2^31),
`linestring_finish` throws `geometry_error` if and only if fewer than two locations
were added, and returns a string if and only if at least two were. -/
theorem linestring_finish_fails_iff (fmt : Int → String) (f : WKTFactory)
    (locations : List Location) (hmax : locations.length < 2147483648) :
    ((∃ what, (WKTFactory.linestring_finish
          (WKTFactory.linestring_add_locations fmt (WKTFactory.linestring_start f)
            locations)).1 = .error (.geometry_error what)) ↔ locations.length < 2)
    ∧ ((∃ str, (WKTFactory.linestring_finish
          (WKTFactory.linestring_add_locations fmt (WKTFactory.linestring_start f)
            locations)).1 = .ok str) ↔ 2 ≤ locations.length) := by
  have h := WKTFactory.linestring_finish_run fmt f locations hmax
  unfold WKTFactory.linestring_run at h
  by_cases h2 : locations.length < 2
  · rw [if_pos h2] at h
    rw [h]
    constructor
    · exact ⟨fun _ => h2, fun _ => ⟨_, rfl⟩⟩
    · constructor
      · rintro ⟨str, hs⟩
        cases hs
      · intro h3
        omega
  · rw [if_neg h2] at h
    rw [h]
    constructor
    · constructor
      · rintro ⟨what, hw⟩
        cases hw
      · intro h3
        exact absurd h3 h2
    · exact ⟨fun _ => by omega, fun _ => ⟨_, rfl⟩⟩

/-- C2 at a concrete input: one location added. -/
theorem linestring_finish_fails_iff_witness :
    ((∃ what, (WKTFactory.linestring_finish
          (WKTFactory.linestring_add_locations decimal
            (WKTFactory.linestring_start WKTFactory.fresh)
            [⟨35, 47⟩])).1 = .error (.geometry_error what))
        ↔ [(⟨35, 47⟩ : Location)].length < 2)
    ∧ ((∃ str, (WKTFactory.linestring_finish
          (WKTFactory.linestring_add_locations decimal
            (WKTFactory.linestring_start WKTFactory.fresh)
            [⟨35, 47⟩])).1 = .ok str)
        ↔ 2 ≤ [(⟨35, 47⟩ : Location)].length) :=
  linestring_finish_fails_iff decimal WKTFactory.fresh [⟨35, 47⟩] (by decide)

end osmium

namespace osmium

/-! ## Multipolygon: the text returned -/

/-- C5: whatever the state of the factory, after `linestring_finish` its accumulated
text is empty; the call throws `geometry_error` exactly when fewer than two points
were counted, and a string it returns is the accumulated text with its last character
replaced by `)`. -/
theorem linestring_finish_leaves_empty (f : WKTFactory) :
    (WKTFactory.linestring_finish f).2.m_str = ""
      ∧ ((WKTFactory.linestring_finish f).1
            = .error (.geometry_error "not enough points for linestring")
          ↔ f.m_points < 2)
      ∧ (∀ str, (WKTFactory.linestring_finish f).1 = .ok str ↔
          (2 ≤ f.m_points ∧ f.m_str ≠ "" ∧ str = WKTFactory.set_last f.m_str ')')) := by
  by_cases h : f.m_points < 2
  · have e : WKTFactory.linestring_finish f
        = (.error (.geometry_error "not enough points for linestring"),
            { f with m_str := "" }) := by
      simp [WKTFactory.linestring_finish, h]
    rw [e]
    refine ⟨rfl, ⟨fun _ => h, fun _ => rfl⟩, fun str => ⟨fun hc => ?_, fun hc => ?_⟩⟩
    · cases hc
    · omega
  · by_cases hs : f.m_str = ""
    · have e : WKTFactory.linestring_finish f = (.error .assertion_failed, f) := by
        simp [WKTFactory.linestring_finish, h, hs]
      rw [e]
      refine ⟨hs, ⟨fun hc => ?_, fun hc => absurd hc h⟩,
        fun str => ⟨fun hc => ?_, fun hc => absurd hs hc.2.1⟩⟩
      · cases hc
      · cases hc
    · have e : WKTFactory.linestring_finish f
          = (.ok (WKTFactory.set_last f.m_str ')'), { f with m_str := "" }) := by
        simp [WKTFactory.linestring_finish, h, hs]
      rw [e]
      refine ⟨rfl, ⟨fun hc => ?_, fun hc => absurd hc h⟩,
        fun str => ⟨fun hc => ?_, fun hc => ?_⟩⟩
      · cases hc
      · injection hc with hc
        exact ⟨by omega, hs, hc.symm⟩
      · rw [hc.2.2]

end osmium

namespace osmium

/-! ## Undefined locations -/

/-- C6: adding a location that is not defined fails and changes nothing.  In every
state of the builder the checked addition of such a location (the undefined sentinel
among them) ends with `geometry_error` and leaves the factory exactly as it was,
accumulated text and point counter included, so that a following `linestring_finish`
does what it would have done without the failed addition; and the loop of
`create_linestring`, stopped by such a location, leaves in the factory the locations
accepted before it and nothing else. -/
theorem add_undefined_location_fails_unchanged (fmt : Int → String) (g : WKTFactory)
    (l : Location) (hl : l.defined = false) :
    (GeometryFactory.add_location (WKTFactory.linestring_add_location fmt) g l).1
        = .error (.geometry_error "location is undefined")
      ∧ (GeometryFactory.add_location (WKTFactory.linestring_add_location fmt) g l).2.m_str
        = g.m_str
      ∧ (GeometryFactory.add_location (WKTFactory.linestring_add_location fmt) g l).2.m_points
        = g.m_points
      ∧ WKTFactory.linestring_finish
          (GeometryFactory.add_location (WKTFactory.linestring_add_location fmt) g l).2
        = WKTFactory.linestring_finish g
      ∧ ∀ (unique : Bool) (accepted rest : List Location),
          (∀ a ∈ accepted, a.defined = true) →
          GeometryFactory.fill_linestring fmt unique g none (accepted ++ l :: rest)
            = (.error (.geometry_error "location is undefined"),
                WKTFactory.linestring_add_locations fmt g
                  (linestring_coordinates unique accepted)) := by
  rw [GeometryFactory.add_location_of_undefined _ _ _ hl]
  exact ⟨rfl, rfl, rfl, rfl, fun unique accepted rest hd =>
    GeometryFactory.fill_linestring_stops fmt unique accepted rest g l hd hl⟩

/-- C6 at a concrete input: two locations accepted, then the undefined location. -/
theorem add_undefined_location_fails_unchanged_witness :
    (GeometryFactory.add_location (WKTFactory.linestring_add_location decimal)
        (WKTFactory.linestring_run decimal WKTFactory.fresh [⟨35, 47⟩, ⟨36, 49⟩])
        Location.undefined).1
        = .error (.geometry_error "location is undefined")
      ∧ (GeometryFactory.add_location (WKTFactory.linestring_add_location decimal)
        (WKTFactory.linestring_run decimal WKTFactory.fresh [⟨35, 47⟩, ⟨36, 49⟩])
        Location.undefined).2.m_str
        = "LINESTRING(35 47,36 49,"
      ∧ (GeometryFactory.add_location (WKTFactory.linestring_add_location decimal)
        (WKTFactory.linestring_run decimal WKTFactory.fresh [⟨35, 47⟩, ⟨36, 49⟩])
        Location.undefined).2.m_points
        = 2
      ∧ WKTFactory.linestring_finish
          (GeometryFactory.add_location (WKTFactory.linestring_add_location decimal)
            (WKTFactory.linestring_run decimal WKTFactory.fresh [⟨35, 47⟩, ⟨36, 49⟩])
            Location.undefined).2
        = (.ok "LINESTRING(35 47,36 49)", ⟨"", 2, false, true⟩)
      ∧ GeometryFactory.fill_linestring decimal true
          (WKTFactory.linestring_run decimal WKTFactory.fresh [⟨35, 47⟩, ⟨36, 49⟩]) none
          ([⟨1, 2⟩, ⟨1, 2⟩] ++ Location.undefined :: [⟨3, 4⟩])
        = (.error (.geometry_error "location is undefined"),
            ⟨"LINESTRING(35 47,36 49,1 2,", 3, false, true⟩) :=
  have h := add_undefined_location_fails_unchanged decimal
    (WKTFactory.linestring_run decimal WKTFactory.fresh [⟨35, 47⟩, ⟨36, 49⟩])
    Location.undefined (by decide)
  ⟨h.1, h.2.1, h.2.2.1, h.2.2.2.1,
    h.2.2.2.2 true [⟨1, 2⟩, ⟨1, 2⟩] [⟨3, 4⟩] (by decide)⟩

end osmium

namespace osmium

/-! ## create_linestring: the minimum of two points, `unique` and `reverse` -/

/-- C8, as amended: the minimum-point check counts the locations added to the builder,
which with `unique` are the ones left after collapsing consecutive duplicates;
`reverse` never affects it.  For every list of at least 2 (and fewer than 2^31) nodes
with defined locations, `create_linestring` succeeds without `unique` for either value
of `reverse`, and with `unique` it succeeds if and only if two of the nodes have
different locations. -/
theorem create_linestring_succeeds_iff (fmt : Int → String) (f : WKTFactory)
    (nodes : List NodeRef) (reverse : Bool)
    (hd : ∀ n ∈ nodes, n.location.defined = true) (h2 : 2 ≤ nodes.length)
    (hmax : nodes.length < 2147483648) :
    (∃ str, (GeometryFactory.create_linestring fmt f nodes false reverse).1 = .ok str)
      ∧ ((∃ str, (GeometryFactory.create_linestring fmt f nodes true reverse).1 = .ok str)
          ↔ ∃ a ∈ nodes, ∃ b ∈ nodes, a.location ≠ b.location) := by
  have hlen : ((if reverse then nodes.reverse else nodes).map NodeRef.location).length
      = nodes.length := by
    cases reverse <;> simp
  have hmem : ∀ l, l ∈ (if reverse then nodes.reverse else nodes).map NodeRef.location
      ↔ ∃ n ∈ nodes, n.location = l := by
    intro l
    cases reverse <;> simp
  constructor
  · rw [GeometryFactory.create_linestring_outcome fmt f nodes false reverse hd hmax,
      linestring_coordinates_all, if_neg (by omega)]
    exact ⟨_, rfl⟩
  · rw [GeometryFactory.create_linestring_outcome fmt f nodes true reverse hd hmax,
      linestring_coordinates_unique]
    have h := two_le_destutter_length
      ((if reverse then nodes.reverse else nodes).map NodeRef.location)
    constructor
    · rintro ⟨str, hs⟩
      by_cases hc : (List.destutter (· ≠ ·)
          ((if reverse then nodes.reverse else nodes).map NodeRef.location)).length < 2
      · rw [if_pos hc] at hs
        cases hs
      · obtain ⟨a, ha, b, hb, hab⟩ := h.1 (by omega)
        obtain ⟨n, hn, rfl⟩ := (hmem a).1 ha
        obtain ⟨m, hm, rfl⟩ := (hmem b).1 hb
        exact ⟨n, hn, m, hm, hab⟩
    · rintro ⟨n, hn, m, hm, hnm⟩
      have h3 := h.2 ⟨n.location, (hmem _).2 ⟨n, hn, rfl⟩, m.location,
        (hmem _).2 ⟨m, hm, rfl⟩, hnm⟩
      rw [if_neg (by omega)]
      exact ⟨_, rfl⟩

/-- C8 at a concrete input: the two nodes of the test
`linestring_with_two_same_locations`, in reverse. -/
theorem create_linestring_succeeds_iff_witness :
    (∃ str, (GeometryFactory.create_linestring decimal WKTFactory.fresh
        [⟨1, ⟨35, 47⟩⟩, ⟨2, ⟨35, 47⟩⟩] false true).1 = .ok str)
      ∧ ((∃ str, (GeometryFactory.create_linestring decimal WKTFactory.fresh
        [⟨1, ⟨35, 47⟩⟩, ⟨2, ⟨35, 47⟩⟩] true true).1 = .ok str)
          ↔ ∃ a ∈ [(⟨1, ⟨35, 47⟩⟩ : NodeRef), ⟨2, ⟨35, 47⟩⟩],
              ∃ b ∈ [(⟨1, ⟨35, 47⟩⟩ : NodeRef), ⟨2, ⟨35, 47⟩⟩], a.location ≠ b.location) :=
  create_linestring_succeeds_iff decimal WKTFactory.fresh
    [⟨1, ⟨35, 47⟩⟩, ⟨2, ⟨35, 47⟩⟩] true (by decide) (by decide) (by decide)

/-- C8, the case that fails: two nodes with the same defined location, as in the test
`linestring_with_two_same_locations`; with `unique` set `create_linestring` throws
`geometry_error`, whatever `reverse` is. -/
theorem create_linestring_two_same_locations :
    (GeometryFactory.create_linestring decimal WKTFactory.fresh
        [⟨1, ⟨35, 47⟩⟩, ⟨2, ⟨35, 47⟩⟩] true false).1
        = .error (.geometry_error "not enough points for linestring")
      ∧ (GeometryFactory.create_linestring decimal WKTFactory.fresh
        [⟨1, ⟨35, 47⟩⟩, ⟨2, ⟨35, 47⟩⟩] true true).1
        = .error (.geometry_error "not enough points for linestring") := by
  decide

/-- C9: on fewer than 2^31 nodes with defined locations, `create_linestring` with
`unique` emits exactly one coordinate for each maximal run of consecutive nodes with
the same location, in the order of the traversal, and throws `geometry_error` when
fewer than 2 coordinates are left; without `unique` it emits one coordinate per node,
duplicates included (and throws for fewer than 2 nodes). -/
theorem create_linestring_coordinates (fmt : Int → String) (f : WKTFactory)
    (nodes : List NodeRef) (reverse : Bool)
    (hd : ∀ n ∈ nodes, n.location.defined = true) (hmax : nodes.length < 2147483648) :
    (GeometryFactory.create_linestring fmt f nodes true reverse).1
        = (if (linestring_coordinates true
                ((if reverse then nodes.reverse else nodes).map NodeRef.location)).length < 2
          then .error (.geometry_error "not enough points for linestring")
          else .ok (linestring_text fmt (linestring_coordinates true
                ((if reverse then nodes.reverse else nodes).map NodeRef.location))))
      ∧ (GeometryFactory.create_linestring fmt f nodes false reverse).1
        = (if nodes.length < 2
          then .error (.geometry_error "not enough points for linestring")
          else .ok (linestring_text fmt
                ((if reverse then nodes.reverse else nodes).map NodeRef.location))) := by
  constructor
  · exact GeometryFactory.create_linestring_outcome fmt f nodes true reverse hd hmax
  · have hlen : ((if reverse then nodes.reverse else nodes).map NodeRef.location).length
        = nodes.length := by
      cases reverse <;> simp
    rw [GeometryFactory.create_linestring_outcome fmt f nodes false reverse hd hmax,
      linestring_coordinates_all, hlen]

/-- C9 at a concrete input: the way of the test `linestring`. -/
theorem create_linestring_coordinates_witness :
    (GeometryFactory.create_linestring decimal WKTFactory.fresh
        [⟨1, ⟨32, 42⟩⟩, ⟨3, ⟨35, 47⟩⟩, ⟨4, ⟨35, 47⟩⟩, ⟨2, ⟨36, 49⟩⟩] true false).1
        = .ok "LINESTRING(32 42,35 47,36 49)"
      ∧ (GeometryFactory.create_linestring decimal WKTFactory.fresh
        [⟨1, ⟨32, 42⟩⟩, ⟨3, ⟨35, 47⟩⟩, ⟨4, ⟨35, 47⟩⟩, ⟨2, ⟨36, 49⟩⟩] false false).1
        = .ok "LINESTRING(32 42,35 47,35 47,36 49)" :=
  create_linestring_coordinates decimal WKTFactory.fresh
    [⟨1, ⟨32, 42⟩⟩, ⟨3, ⟨35, 47⟩⟩, ⟨4, ⟨35, 47⟩⟩, ⟨2, ⟨36, 49⟩⟩] false
    (by decide) (by decide)

/-- C10: for every node list and either value of `unique`, `create_linestring` with
`reverse` fails if and only if it fails without (and then with the same error), and
otherwise the coordinates it emits are those emitted without `reverse`, in reverse
order. -/
theorem create_linestring_reverse (fmt : Int → String) (f : WKTFactory)
    (nodes : List NodeRef) (unique : Bool) :
    (∃ e, (GeometryFactory.create_linestring fmt f nodes unique false).1 = .error e
        ∧ (GeometryFactory.create_linestring fmt f nodes unique true).1 = .error e)
      ∨ ((GeometryFactory.create_linestring fmt f nodes unique false).1
          = .ok (linestring_text fmt
              (linestring_coordinates unique (nodes.map NodeRef.location)))
        ∧ (GeometryFactory.create_linestring fmt f nodes unique true).1
          = .ok (linestring_text fmt
              (linestring_coordinates unique (nodes.map NodeRef.location)).reverse)) := by
  by_cases hd : ∀ n ∈ nodes, n.location.defined = true
  · rw [GeometryFactory.create_linestring_defined fmt f nodes unique false hd,
      GeometryFactory.create_linestring_defined fmt f nodes unique true hd]
    simp only [if_true, Bool.false_eq_true, if_false, List.map_reverse,
      linestring_coordinates_reverse]
    rw [WKTFactory.linestring_finish_run_counter, WKTFactory.linestring_finish_run_counter]
    have hp : (WKTFactory.linestring_run fmt f
          (linestring_coordinates unique (nodes.map NodeRef.location)).reverse).m_points
        = (WKTFactory.linestring_run fmt f
          (linestring_coordinates unique (nodes.map NodeRef.location))).m_points :=
      WKTFactory.add_locations_m_points_congr fmt _ _ _ _ rfl (by simp)
    rw [hp]
    by_cases hc : (WKTFactory.linestring_run fmt f
          (linestring_coordinates unique (nodes.map NodeRef.location))).m_points < 2
    · left
      rw [if_pos hc, if_pos hc]
      exact ⟨_, rfl, rfl⟩
    · right
      rw [if_neg hc, if_neg hc]
      exact ⟨rfl, rfl⟩
  · left
    have hu : ∃ n ∈ nodes, n.location.defined = false := by
      push_neg at hd
      obtain ⟨n, hn, hnd⟩ := hd
      exact ⟨n, hn, by simpa using hnd⟩
    exact ⟨_, GeometryFactory.create_linestring_undefined fmt f nodes unique false hu,
      GeometryFactory.create_linestring_undefined fmt f nodes unique true hu⟩

end osmium

namespace osmium

/-! ## Points -/

/-- C11: for every state of the factory and every defined location, creating a point
returns exactly `POINT(` + the longitude text + one space + the latitude text + `)`
and leaves the factory, its accumulated text included, as it was (`make_point` itself
does so for every location); for a location that is not defined, the undefined
sentinel among them, it fails with `geometry_error` and returns no string. -/
theorem create_point_text (fmt : Int → String) (f : WKTFactory) (l : Location) :
    WKTFactory.make_point fmt f l = ("POINT(" ++ fmt l.x ++ " " ++ fmt l.y ++ ")", f)
      ∧ (l.defined = true →
          GeometryFactory.create_point fmt f l
            = (.ok ("POINT(" ++ fmt l.x ++ " " ++ fmt l.y ++ ")"), f))
      ∧ (l.defined = false →
          GeometryFactory.create_point fmt f l
            = (.error (.geometry_error "location is undefined"), f)) := by
  have hp : WKTFactory.make_point fmt f l
      = ("POINT(" ++ fmt l.x ++ " " ++ fmt l.y ++ ")", f) := by
    have e : String.singleton ' ' = " " := by decide
    simp only [WKTFactory.make_point, Location.as_string, e, String.append_assoc]
  refine ⟨hp, fun hd => ?_, fun hd => ?_⟩
  · simp only [GeometryFactory.create_point, hd, if_true, hp]
  · simp [GeometryFactory.create_point, hd]

/-- C11 at a concrete input: a factory in the middle of a linestring, the location
(3.2, 4.2) of the test `point` and the undefined location of the test `empty_point`. -/
theorem create_point_text_witness :
    GeometryFactory.create_point decimal ⟨"LINESTRING(1 2,", 1, false, true⟩ ⟨32, 42⟩
        = (.ok "POINT(32 42)", ⟨"LINESTRING(1 2,", 1, false, true⟩)
      ∧ GeometryFactory.create_point decimal ⟨"LINESTRING(1 2,", 1, false, true⟩
          Location.undefined
        = (.error (.geometry_error "location is undefined"),
            ⟨"LINESTRING(1 2,", 1, false, true⟩) :=
  ⟨(create_point_text decimal ⟨"LINESTRING(1 2,", 1, false, true⟩ ⟨32, 42⟩).2.1
      (by decide),
    (create_point_text decimal ⟨"LINESTRING(1 2,", 1, false, true⟩
      Location.undefined).2.2 (by decide)⟩

/-! ## The registry of output formats -/

/-- C12: `create_output` fails with `unsupported_file_format_error` if and only if the
slot of the format of the file holds the empty function, and then nothing is called;
otherwise it makes exactly the call of the function stored in that slot, with the
pool, the file and the output queue it was given, and returns what that call
returned. -/
theorem create_output_fails_iff {F P Q E W : Type} (as_string : F → String)
    (fac : OutputFormatFactory F P Q E W) (pool : P) (file : File F) (output_queue : Q)
    (w : W) :
    ((∃ e, (fac.create_output as_string pool file output_queue w).1 = .error e)
        ↔ fac.callbacks file.format = none)
      ∧ (fac.callbacks file.format = none →
          (fac.create_output as_string pool file output_queue w).2 = w)
      ∧ (∀ func, fac.callbacks file.format = some func →
          fac.create_output as_string pool file output_queue w
            = (.ok (func pool file output_queue w).1,
                (func pool file output_queue w).2)) := by
  unfold OutputFormatFactory.create_output
  cases h : fac.callbacks file.format with
  | none =>
    refine ⟨⟨fun _ => rfl, fun _ => ⟨_, rfl⟩⟩, fun _ => rfl, fun func hf => ?_⟩
    cases hf
  | some func =>
    refine ⟨⟨fun hc => ?_, fun hc => ?_⟩, fun hc => ?_, fun g hg => ?_⟩
    · obtain ⟨e, he⟩ := hc
      cases he
    · cases hc
    · cases hc
    · injection hg with hg
      subst hg
      rfl

/-- C12 at a concrete input: formats are numbers, the state counts the calls made, and
the function registered for format 7 names the file it is to write. -/
theorem create_output_fails_iff_witness :
    ((OutputFormatFactory.register_output_format (OutputFormatFactory.empty Nat Unit Unit String Nat) 7
          (some fun _ file _ calls => ("blackhole:" ++ file.filename, calls + 1))).2.create_output
        (fun _ => "?") () ⟨"out.osm", 7⟩ () 0
        = (.ok "blackhole:out.osm", 1))
      ∧ ((OutputFormatFactory.register_output_format (OutputFormatFactory.empty Nat Unit Unit String Nat) 7
          (some fun _ file _ calls => ("blackhole:" ++ file.filename, calls + 1))).2.create_output
        (fun _ => "?") () ⟨"out.osm", 3⟩ () 0).2 = 0 :=
  ⟨(create_output_fails_iff (fun _ => "?")
      (OutputFormatFactory.register_output_format (OutputFormatFactory.empty Nat Unit Unit String Nat) 7
        (some fun _ file _ calls => ("blackhole:" ++ file.filename, calls + 1))).2
      () ⟨"out.osm", 7⟩ () 0).2.2 _ rfl,
    (create_output_fails_iff (fun _ => "?")
      (OutputFormatFactory.register_output_format (OutputFormatFactory.empty Nat Unit Unit String Nat) 7
        (some fun _ file _ calls => ("blackhole:" ++ file.filename, calls + 1))).2
      () ⟨"out.osm", 3⟩ () 0).2.1 rfl⟩

/-- C13: `register_output_format(format, f)` returns `true`, puts `f` in the slot of
`format` and leaves every other slot as it was, so that a following `create_output`
for a file of that format makes the call of `f` and returns its result. -/
theorem register_output_format_stores {F P Q E W : Type} [DecidableEq F]
    (as_string : F → String) (fac : OutputFormatFactory F P Q E W) (format : F)
    (create_function : create_output_type F P Q E W) :
    (fac.register_output_format format create_function).1 = true
      ∧ (fac.register_output_format format create_function).2.callbacks format
          = create_function
      ∧ (∀ other, other ≠ format →
          (fac.register_output_format format create_function).2.callbacks other
            = fac.callbacks other)
      ∧ (∀ (f : P → File F → Q → W → E × W) (pool : P) (file : File F) (output_queue : Q)
          (w : W), create_function = some f → file.format = format →
          (fac.register_output_format format create_function).2.create_output as_string
              pool file output_queue w
            = (.ok (f pool file output_queue w).1, (f pool file output_queue w).2)) := by
  refine ⟨rfl, ?_, fun other ho => ?_, fun f pool file q w hc hf => ?_⟩
  · simp [OutputFormatFactory.register_output_format, OutputFormatFactory.callbacks]
  · simp [OutputFormatFactory.register_output_format, OutputFormatFactory.callbacks, ho]
  · simp [OutputFormatFactory.create_output, OutputFormatFactory.register_output_format,
      OutputFormatFactory.callbacks, hf, hc]

/-- C13 at a concrete input: a registration for format 7 in a factory that has one for
format 3. -/
theorem register_output_format_stores_witness :
    ((OutputFormatFactory.register_output_format
        (OutputFormatFactory.register_output_format
          (OutputFormatFactory.empty Nat Unit Unit String Nat) 3
          (some fun _ _ _ calls => ("xml", calls + 1))).2
        7 (some fun _ _ _ calls => ("blackhole", calls + 1))).2.create_output
        (fun _ => "?") () ⟨"out.osm", 7⟩ () 0 = (.ok "blackhole", 1))
      ∧ ((OutputFormatFactory.register_output_format
        (OutputFormatFactory.register_output_format
          (OutputFormatFactory.empty Nat Unit Unit String Nat) 3
          (some fun _ _ _ calls => ("xml", calls + 1))).2
        7 (some fun _ _ _ calls => ("blackhole", calls + 1))).2.callbacks 3
        = (OutputFormatFactory.register_output_format
          (OutputFormatFactory.empty Nat Unit Unit String Nat) 3
          (some fun _ _ _ calls => ("xml", calls + 1))).2.callbacks 3) :=
  ⟨(register_output_format_stores (fun _ => "?")
      (OutputFormatFactory.register_output_format
        (OutputFormatFactory.empty Nat Unit Unit String Nat) 3
        (some fun _ _ _ calls => ("xml", calls + 1))).2
      7 (some fun _ _ _ calls => ("blackhole", calls + 1))).2.2.2 _ () ⟨"out.osm", 7⟩ () 0
      rfl rfl,
    (register_output_format_stores (fun _ => "?")
      (OutputFormatFactory.register_output_format
        (OutputFormatFactory.empty Nat Unit Unit String Nat) 3
        (some fun _ _ _ calls => ("xml", calls + 1))).2
      7 (some fun _ _ _ calls => ("blackhole", calls + 1))).2.2.1 3 (by decide)⟩

/-- C14, as amended: a registration lasts until the next `register_output_format` for
the same format, which replaces it: after two registrations for one format the slot
holds the function registered last, and `create_output` calls that one.  A
registration for another format does not change the slot. -/
theorem register_output_format_replaces {F P Q E W : Type} [DecidableEq F]
    (as_string : F → String) (fac : OutputFormatFactory F P Q E W) (format : F)
    (first second : P → File F → Q → W → E × W) :
    ((fac.register_output_format format (some first)).2.register_output_format format
        (some second)).2.callbacks format = some second
      ∧ (∀ (pool : P) (file : File F) (output_queue : Q) (w : W), file.format = format →
          ((fac.register_output_format format (some first)).2.register_output_format
              format (some second)).2.create_output as_string pool file output_queue w
            = (.ok (second pool file output_queue w).1,
                (second pool file output_queue w).2))
      ∧ (∀ other, other ≠ format →
          ((fac.register_output_format format (some first)).2.register_output_format
              other (some second)).2.callbacks format = some first) := by
  refine ⟨?_, fun pool file q w hf => ?_, fun other ho => ?_⟩
  · simp [OutputFormatFactory.register_output_format, OutputFormatFactory.callbacks]
  · simp [OutputFormatFactory.create_output, OutputFormatFactory.register_output_format,
      OutputFormatFactory.callbacks, hf]
  · have ho' : format ≠ other := fun hc => ho hc.symm
    simp [OutputFormatFactory.register_output_format, OutputFormatFactory.callbacks, ho']

/-- C14 at a concrete input: two registrations for format 7. -/
theorem register_output_format_replaces_witness :
    ((OutputFormatFactory.register_output_format
        (OutputFormatFactory.register_output_format
          (OutputFormatFactory.empty Nat Unit Unit String Nat) 7
          (some fun _ _ _ calls => ("first", calls + 1))).2
        7 (some fun _ _ _ calls => ("second", calls + 1))).2.create_output
        (fun _ => "?") () ⟨"out.osm", 7⟩ () 0 = (.ok "second", 1)) :=
  (register_output_format_replaces (fun _ => "?")
    (OutputFormatFactory.empty Nat Unit Unit String Nat) 7
    (fun _ _ _ calls => ("first", calls + 1))
    (fun _ _ _ calls => ("second", calls + 1))).2.1 () ⟨"out.osm", 7⟩ () 0 rfl

/-- C14, the case that fails: a constructor is registered for format 7, then another
one for the same format; `create_output` for a file of format 7 calls the second, not
the first. -/
theorem second_registration_changes_constructor :
    ((OutputFormatFactory.register_output_format
        (OutputFormatFactory.empty Nat Unit Unit String Nat) 7
        (some fun _ _ _ calls => ("first", calls + 1))).2.create_output
        (fun _ => "?") () ⟨"out.osm", 7⟩ () 0).1 = .ok "first"
      ∧ ((OutputFormatFactory.register_output_format
        (OutputFormatFactory.register_output_format
          (OutputFormatFactory.empty Nat Unit Unit String Nat) 7
          (some fun _ _ _ calls => ("first", calls + 1))).2
        7 (some fun _ _ _ calls => ("second", calls + 1))).2.create_output
        (fun _ => "?") () ⟨"out.osm", 7⟩ () 0).1 = .ok "second" := by
  decide

/-! ## Way: the locations of the nodes -/

/-- C15: `update_node_location(new_node_ref)` leaves the number, the order and the ids
of the node references as they are; the node reference at each position gets the
location of `new_node_ref` if its id is the id of `new_node_ref`, and keeps its own
location otherwise. -/
theorem update_node_location_sets (w : Way) (new_node_ref : NodeRef) :
    (w.update_node_location new_node_ref).nodes.length = w.nodes.length
      ∧ ∀ i : Nat, (w.update_node_location new_node_ref).nodes[i]?
          = (w.nodes[i]?).map fun node_ref =>
              ⟨node_ref.ref,
                if node_ref.ref = new_node_ref.ref then new_node_ref.location
                else node_ref.location⟩ := by
  have hf : (fun node_ref : NodeRef =>
        if node_ref.ref = new_node_ref.ref then node_ref.set_location new_node_ref.location
        else node_ref)
      = fun node_ref => ⟨node_ref.ref,
          if node_ref.ref = new_node_ref.ref then new_node_ref.location
          else node_ref.location⟩ := by
    funext node_ref
    by_cases h : node_ref.ref = new_node_ref.ref
    · rw [if_pos h, if_pos h]
      rfl
    · rw [if_neg h, if_neg h]
      cases node_ref
      rfl
  constructor
  · simp [Way.update_node_location]
  · intro i
    simp only [Way.update_node_location, List.getElem?_map, hf]

end osmium

namespace osmium

/-! ## Multipolygon: what `multipolygon_start` resets, what the ring calls append -/

/-- C16, as amended: for every prior state of the factory and every sequence of
`multipolygon_add_outer_ring`, `multipolygon_add_inner_ring` and
`multipolygon_add_location` calls after `multipolygon_start` that does not begin with
`multipolygon_add_location`, the string returned by `multipolygon_finish` is the one
returned on a freshly constructed factory; the same holds for every sequence when the
prior state has `m_first` set, as a fresh factory and one that has finished a
multipolygon have. -/
theorem multipolygon_start_resets (fmt : Int → String) (f : WKTFactory)
    (calls : List WKTFactory.multipolygon_call)
    (h : f.m_first = true ∨ ∀ l rest, calls ≠ .add_location l :: rest) :
    (WKTFactory.multipolygon_finish
        (WKTFactory.multipolygon_calls fmt (WKTFactory.multipolygon_start f) calls)).1
      = (WKTFactory.multipolygon_finish
          (WKTFactory.multipolygon_calls fmt
            (WKTFactory.multipolygon_start WKTFactory.fresh) calls)).1 := by
  have key : (WKTFactory.multipolygon_calls fmt (WKTFactory.multipolygon_start f) calls).m_str
      = (WKTFactory.multipolygon_calls fmt
          (WKTFactory.multipolygon_start WKTFactory.fresh) calls).m_str := by
    rcases h with h | h
    · exact WKTFactory.multipolygon_calls_congr fmt calls _ _ rfl rfl h
    · cases calls with
      | nil => rfl
      | cons c cs =>
        have hc : ∀ l, c ≠ .add_location l := by
          intro l hl
          exact h l cs (by rw [hl])
        have h1 := WKTFactory.multipolygon_apply_ring_congr fmt
          (WKTFactory.multipolygon_start f)
          (WKTFactory.multipolygon_start WKTFactory.fresh) c hc rfl rfl
        exact WKTFactory.multipolygon_calls_congr fmt cs _ _ h1.1 h1.2.1 h1.2.2
  simp only [WKTFactory.multipolygon_finish, key]

/-- C16 at a concrete input: a factory left in the middle of a ring by an abandoned
multipolygon, then a new multipolygon of one ring with two locations. -/
theorem multipolygon_start_resets_witness :
    (WKTFactory.multipolygon_finish
        (WKTFactory.multipolygon_calls decimal
          (WKTFactory.multipolygon_start ⟨"MULTIPOLYGON(((1 2", 5, true, false⟩)
          [.add_outer_ring, .add_location ⟨3, 4⟩, .add_location ⟨5, 6⟩])).1
      = "MULTIPOLYGON(((3 4,5 6)))" :=
  multipolygon_start_resets decimal ⟨"MULTIPOLYGON(((1 2", 5, true, false⟩
    [.add_outer_ring, .add_location ⟨3, 4⟩, .add_location ⟨5, 6⟩]
    (Or.inr (fun _ _ hc => by cases hc))

/-- C16, the case that fails: the factory was left in the middle of a ring by an
abandoned multipolygon (`multipolygon_start`, `multipolygon_add_outer_ring`,
`multipolygon_add_location`), and the call after the next `multipolygon_start` is
`multipolygon_add_location`; the text returned begins with a comma that a fresh factory
does not write, because `multipolygon_start` does not set `m_first`. -/
theorem multipolygon_start_keeps_m_first :
    WKTFactory.multipolygon_add_location decimal
        (WKTFactory.multipolygon_add_outer_ring
          (WKTFactory.multipolygon_start WKTFactory.fresh)) ⟨1, 2⟩
        = ⟨"MULTIPOLYGON(((1 2", 0, true, false⟩
      ∧ (WKTFactory.multipolygon_finish
          (WKTFactory.multipolygon_calls decimal
            (WKTFactory.multipolygon_start ⟨"MULTIPOLYGON(((1 2", 0, true, false⟩)
            [.add_location ⟨3, 4⟩])).1
        = "MULTIPOLYGON(,3 4)))"
      ∧ (WKTFactory.multipolygon_finish
          (WKTFactory.multipolygon_calls decimal
            (WKTFactory.multipolygon_start WKTFactory.fresh)
            [.add_location ⟨3, 4⟩])).1
        = "MULTIPOLYGON(3 4)))" := by
  decide

/-- C18: after `multipolygon_start` the first `multipolygon_add_outer_ring` appends
exactly `((`, which makes the text `MULTIPOLYGON(((`; whatever calls follow it, a later
`multipolygon_add_outer_ring` of the same geometry appends exactly `)),((`;
`multipolygon_add_inner_ring` appends exactly `),(`, and the location added next
follows it without a comma. -/
theorem ring_calls_append (fmt : Int → String) (f : WKTFactory)
    (calls : List WKTFactory.multipolygon_call) (l : Location) :
    (WKTFactory.multipolygon_add_outer_ring (WKTFactory.multipolygon_start f)).m_str
        = (WKTFactory.multipolygon_start f).m_str ++ "(("
      ∧ (WKTFactory.multipolygon_add_outer_ring (WKTFactory.multipolygon_start f)).m_str
        = "MULTIPOLYGON((("
      ∧ (WKTFactory.multipolygon_add_outer_ring
          (WKTFactory.multipolygon_calls fmt
            (WKTFactory.multipolygon_add_outer_ring (WKTFactory.multipolygon_start f))
            calls)).m_str
        = (WKTFactory.multipolygon_calls fmt
            (WKTFactory.multipolygon_add_outer_ring (WKTFactory.multipolygon_start f))
            calls).m_str ++ ")),(("
      ∧ (WKTFactory.multipolygon_add_inner_ring f).m_str = f.m_str ++ "),("
      ∧ (WKTFactory.multipolygon_add_location fmt
          (WKTFactory.multipolygon_add_inner_ring f) l).m_str
        = f.m_str ++ "),(" ++ l.as_string fmt ' ' := by
  refine ⟨rfl, ?_, ?_, rfl, ?_⟩
  · show "MULTIPOLYGON(" ++ "((" = "MULTIPOLYGON((("
    decide
  · have hp := WKTFactory.multipolygon_calls_in_polygon fmt calls
      (WKTFactory.multipolygon_add_outer_ring (WKTFactory.multipolygon_start f)) rfl
    have e : ")),((" = "))," ++ "((" := by decide
    generalize WKTFactory.multipolygon_calls fmt
      (WKTFactory.multipolygon_add_outer_ring (WKTFactory.multipolygon_start f)) calls
      = g at hp ⊢
    show (if g.m_in_polygon = true then g.m_str ++ "))," else g.m_str) ++ "(("
      = g.m_str ++ ")),(("
    rw [if_pos hp, e, String.append_assoc]
  · show (if (!true) = true then f.m_str ++ "),(" ++ "," else f.m_str ++ "),(")
        ++ l.as_string fmt ' ' = f.m_str ++ "),(" ++ l.as_string fmt ' '
    rfl

end osmium

namespace osmium

/-! ## output_int -/

/-- C19, the failing input: for the least `int64_t`, -9223372036854775808, `output_int`
appends `-(` to the output and not the decimal text of the value: the negation gives
the same value again, the remainder of its division by 10 is -8, which makes the
character `(`, and the loop ends after this one character because the quotient is not
positive.  (For every other value the decimal text is appended: `output_int_decimal`.) -/
theorem output_int_least_value (m_out : String) :
    OutputBlock.output_int m_out (-9223372036854775808) = some (m_out ++ "-(")
      ∧ m_out ++ toString (-9223372036854775808 : Int)
          = m_out ++ "-9223372036854775808"
      ∧ OutputBlock.output_int m_out (-9223372036854775808)
          ≠ some (m_out ++ toString (-9223372036854775808 : Int)) := by
  have hv : OutputBlock.output_int m_out (-9223372036854775808) = some (m_out ++ "-(") := by
    have hd : OutputBlock.output_int_digits 20
        (if (-9223372036854775808 : Int) < 0 then int64 (- -9223372036854775808)
          else -9223372036854775808) [] = some ['('] := by decide
    have hc : OutputBlock.output_int_copy ['('] = ['('] := by decide
    unfold OutputBlock.output_int
    rw [hd, Option.map_some', hc, if_pos (by decide)]
    congr 1
    apply String.ext
    simp
  refine ⟨hv, rfl, ?_⟩
  rw [hv]
  intro hc
  injection hc with hc
  have hl := congrArg String.length hc
  simp only [String.length_append] at hl
  have h1 : "-(".length = 2 := by decide
  have h2 : (toString (-9223372036854775808 : Int)).length = 20 := by decide
  omega

/-- C20: for every `int64_t` value the first loop of `output_int` ends without writing
past the 20 characters of `temp`; it writes at least 1 and at most 20 characters, at
most 19 when the value is not the least `int64_t` (for which it writes 1), and the
second loop reads back exactly the characters written, last one first. -/
theorem output_int_stays_in_temp (value : Int) (h0 : -9223372036854775808 ≤ value)
    (h1 : value < 9223372036854775808) :
    ∃ temp : List Char,
      OutputBlock.output_int_digits 20 (if value < 0 then int64 (-value) else value) []
          = some temp
        ∧ 1 ≤ temp.length ∧ temp.length ≤ 20
        ∧ (value ≠ -9223372036854775808 → temp.length ≤ 19)
        ∧ OutputBlock.output_int_copy temp = temp.reverse := by
  by_cases hmin : value = -9223372036854775808
  · subst hmin
    exact ⟨['('], by decide, by decide, by decide, fun hc => absurd rfl hc, by decide⟩
  · obtain ⟨hm, hn⟩ := OutputBlock.output_int_magnitude value (by omega) h1
    obtain ⟨temp, ht, hl1, hl2, hc, _⟩ := OutputBlock.output_int_digits_repr value.natAbs hn
    rw [hm]
    exact ⟨temp, ht, hl1, by omega, fun _ => hl2, hc⟩

/-- C20 at a concrete input: the greatest `int64_t`. -/
theorem output_int_stays_in_temp_witness :
    ∃ temp : List Char,
      OutputBlock.output_int_digits 20
          (if (9223372036854775807 : Int) < 0 then int64 (-9223372036854775807)
            else 9223372036854775807) []
          = some temp
        ∧ 1 ≤ temp.length ∧ temp.length ≤ 20
        ∧ ((9223372036854775807 : Int) ≠ -9223372036854775808 → temp.length ≤ 19)
        ∧ OutputBlock.output_int_copy temp = temp.reverse :=
  output_int_stays_in_temp 9223372036854775807 (by decide) (by decide)

end osmium

namespace osmium

/-! ## Linestring: the assertion of `linestring_finish` -/

/-- C21: in the state reached by `linestring_start` followed by at least 2
`linestring_add_location` calls the accumulated text is not empty and its last
character is the comma written by the last addition, so that the assertion of
`linestring_finish` holds (in fact after any number of additions the call never ends
on it) and the assignment to the last character replaces exactly that comma by `)`. -/
theorem linestring_finish_assertion_holds (fmt : Int → String) (f : WKTFactory)
    (locations : List Location) (h2 : 2 ≤ locations.length) :
    (WKTFactory.linestring_add_locations fmt (WKTFactory.linestring_start f)
        locations).m_str ≠ ""
      ∧ (WKTFactory.linestring_add_locations fmt (WKTFactory.linestring_start f)
        locations).m_str.data.getLast? = some ','
      ∧ (∃ s, (WKTFactory.linestring_add_locations fmt (WKTFactory.linestring_start f)
            locations).m_str = s ++ ","
          ∧ WKTFactory.set_last
              (WKTFactory.linestring_add_locations fmt (WKTFactory.linestring_start f)
                locations).m_str ')' = s ++ ")")
      ∧ (WKTFactory.linestring_finish
          (WKTFactory.linestring_add_locations fmt (WKTFactory.linestring_start f)
            locations)).1 ≠ .error .assertion_failed := by
  have hne : locations ≠ [] := by
    intro h0
    subst h0
    simp at h2
  have hs := WKTFactory.linestring_run_m_str fmt f locations hne
  have hf := WKTFactory.linestring_finish_run_counter fmt f locations
  unfold WKTFactory.linestring_run at hs hf
  refine ⟨?_, ?_, ⟨_, hs, ?_⟩, ?_⟩
  · rw [hs]
    exact append_comma_ne_empty _
  · rw [hs, String.data_append]
    show (_ ++ [',']).getLast? = some ','
    exact List.getLast?_concat _
  · rw [hs]
    exact set_last_comma _
  · rw [hf]
    split
    · intro hc
      cases hc
    · intro hc
      cases hc

/-- C21 at a concrete input: a used factory and two additions. -/
theorem linestring_finish_assertion_holds_witness :
    (WKTFactory.linestring_add_locations decimal
        (WKTFactory.linestring_start ⟨"", 9, true, false⟩) [⟨32, 42⟩, ⟨35, 47⟩]).m_str ≠ ""
      ∧ (WKTFactory.linestring_add_locations decimal
        (WKTFactory.linestring_start ⟨"", 9, true, false⟩)
        [⟨32, 42⟩, ⟨35, 47⟩]).m_str.data.getLast? = some ','
      ∧ (∃ s, (WKTFactory.linestring_add_locations decimal
            (WKTFactory.linestring_start ⟨"", 9, true, false⟩)
            [⟨32, 42⟩, ⟨35, 47⟩]).m_str = s ++ ","
          ∧ WKTFactory.set_last
              (WKTFactory.linestring_add_locations decimal
                (WKTFactory.linestring_start ⟨"", 9, true, false⟩)
                [⟨32, 42⟩, ⟨35, 47⟩]).m_str ')' = s ++ ")")
      ∧ (WKTFactory.linestring_finish
          (WKTFactory.linestring_add_locations decimal
            (WKTFactory.linestring_start ⟨"", 9, true, false⟩)
            [⟨32, 42⟩, ⟨35, 47⟩])).1 ≠ .error .assertion_failed :=
  linestring_finish_assertion_holds decimal ⟨"", 9, true, false⟩ [⟨32, 42⟩, ⟨35, 47⟩]
    (by decide)

/-! ## NodeRef: comparisons and `positive_ref` -/

/-- C22: the comparison operators on node references look at the ids only: node
references with the same id compare alike whatever their locations, and with the same
id they are equal.  For all `a` and `b` exactly one of `a < b`, `a == b`, `a > b`
holds; `a <= b` is the negation of `a > b`, `a >= b` that of `a < b`, and `a != b` that
of `a == b`. -/
theorem node_ref_comparisons (a b : NodeRef) (la lb : Location) :
    (NodeRef.lt ⟨a.ref, la⟩ ⟨b.ref, lb⟩ = NodeRef.lt a b
        ∧ NodeRef.gt ⟨a.ref, la⟩ ⟨b.ref, lb⟩ = NodeRef.gt a b
        ∧ NodeRef.le ⟨a.ref, la⟩ ⟨b.ref, lb⟩ = NodeRef.le a b
        ∧ NodeRef.ge ⟨a.ref, la⟩ ⟨b.ref, lb⟩ = NodeRef.ge a b
        ∧ NodeRef.eq ⟨a.ref, la⟩ ⟨b.ref, lb⟩ = NodeRef.eq a b
        ∧ NodeRef.ne ⟨a.ref, la⟩ ⟨b.ref, lb⟩ = NodeRef.ne a b)
      ∧ ((NodeRef.lt a b = true ∧ NodeRef.eq a b = false ∧ NodeRef.gt a b = false)
        ∨ (NodeRef.lt a b = false ∧ NodeRef.eq a b = true ∧ NodeRef.gt a b = false)
        ∨ (NodeRef.lt a b = false ∧ NodeRef.eq a b = false ∧ NodeRef.gt a b = true))
      ∧ NodeRef.le a b = !NodeRef.gt a b
      ∧ NodeRef.ge a b = !NodeRef.lt a b
      ∧ NodeRef.ne a b = !NodeRef.eq a b
      ∧ NodeRef.eq ⟨a.ref, la⟩ ⟨a.ref, lb⟩ = true := by
  refine ⟨⟨rfl, rfl, rfl, rfl, rfl, rfl⟩, ?_, ?_, ?_, rfl, ?_⟩
  · simp only [NodeRef.lt, NodeRef.eq, NodeRef.gt, decide_eq_true_eq, decide_eq_false_iff_not]
    rcases lt_trichotomy a.ref b.ref with h | h | h
    · exact Or.inl ⟨h, by omega, by omega⟩
    · exact Or.inr (Or.inl ⟨by omega, h, by omega⟩)
    · exact Or.inr (Or.inr ⟨by omega, by omega, h⟩)
  · simp only [NodeRef.le, NodeRef.gt]
    by_cases h : a.ref ≤ b.ref
    · have h' : ¬ a.ref > b.ref := by omega
      simp [h, h']
    · have h' : a.ref > b.ref := by omega
      simp [h, h']
  · simp only [NodeRef.ge, NodeRef.lt]
    by_cases h : a.ref ≥ b.ref
    · have h' : ¬ a.ref < b.ref := by omega
      simp [h, h']
    · have h' : a.ref < b.ref := by omega
      simp [h, h']
  · simp [NodeRef.eq, NodeRef.ref]

/-- C22 at a concrete input: the same id with two different locations. -/
theorem node_ref_same_id_different_locations :
    NodeRef.eq ⟨7, ⟨32, 42⟩⟩ ⟨7, ⟨35, 47⟩⟩ = true
      ∧ NodeRef.location_equal ⟨7, ⟨32, 42⟩⟩ ⟨7, ⟨35, 47⟩⟩ = false
      ∧ NodeRef.ne ⟨7, ⟨32, 42⟩⟩ ⟨7, ⟨35, 47⟩⟩ = false
      ∧ NodeRef.lt ⟨7, ⟨32, 42⟩⟩ ⟨7, ⟨35, 47⟩⟩ = false
      ∧ NodeRef.gt ⟨7, ⟨32, 42⟩⟩ ⟨7, ⟨35, 47⟩⟩ = false := by
  decide

/-! ## Way: `update_node_location` applied twice -/

/-- C23: applying `update_node_location` twice with the same node reference gives the
way that one application gives.  One application keeps the number of node references;
at every position where the way has a node reference with the id of the given one, the
result has that node reference with the location of the given one, and at every other
position it has the node reference of the way unchanged; so every node reference of
the result with the id of the given one has the location of the given one. -/
theorem update_node_location_idempotent (w : Way) (new_node_ref : NodeRef) :
    (w.update_node_location new_node_ref).update_node_location new_node_ref
        = w.update_node_location new_node_ref
      ∧ (w.update_node_location new_node_ref).nodes.length = w.nodes.length
      ∧ (∀ (i : Nat) (node_ref : NodeRef), w.nodes[i]? = some node_ref →
          node_ref.ref = new_node_ref.ref →
          (w.update_node_location new_node_ref).nodes[i]?
            = some ⟨node_ref.ref, new_node_ref.location⟩)
      ∧ (∀ (i : Nat) (node_ref : NodeRef), w.nodes[i]? = some node_ref →
          node_ref.ref ≠ new_node_ref.ref →
          (w.update_node_location new_node_ref).nodes[i]? = some node_ref)
      ∧ ∀ node_ref ∈ (w.update_node_location new_node_ref).nodes,
          node_ref.ref = new_node_ref.ref → node_ref.location = new_node_ref.location := by
  have hcomplete : ∀ node_ref ∈ (w.update_node_location new_node_ref).nodes,
      node_ref.ref = new_node_ref.ref → node_ref.location = new_node_ref.location := by
    intro node_ref hm href
    simp only [Way.update_node_location, List.mem_map] at hm
    obtain ⟨r, _, hr⟩ := hm
    by_cases h : r.ref = new_node_ref.ref
    · rw [if_pos h] at hr
      rw [← hr]
      rfl
    · rw [if_neg h] at hr
      rw [hr] at h
      exact absurd href h
  have hfix : ∀ node_ref ∈ (w.update_node_location new_node_ref).nodes,
      (if node_ref.ref = new_node_ref.ref then
          node_ref.set_location new_node_ref.location
        else node_ref) = node_ref := by
    intro node_ref hm
    by_cases h : node_ref.ref = new_node_ref.ref
    · rw [if_pos h]
      have hl := hcomplete node_ref hm h
      cases node_ref
      simp only [NodeRef.set_location, NodeRef.location] at hl ⊢
      rw [hl]
    · rw [if_neg h]
  have hpos : ∀ i : Nat, (w.update_node_location new_node_ref).nodes[i]?
      = (w.nodes[i]?).map fun node_ref =>
          if node_ref.ref = new_node_ref.ref then
            node_ref.set_location new_node_ref.location
          else node_ref := by
    intro i
    simp only [Way.update_node_location, List.getElem?_map]
  refine ⟨?_, ?_, fun i node_ref hi href => ?_, fun i node_ref hi href => ?_, hcomplete⟩
  · show Way.mk ((w.update_node_location new_node_ref).nodes.map _) = _
    rw [List.map_congr_left hfix, List.map_id']
  · simp [Way.update_node_location]
  · rw [hpos i, hi, Option.map_some', if_pos href]
    rfl
  · rw [hpos i, hi, Option.map_some', if_neg href]

/-- C23 at a concrete input: a way that passes twice through node 1, whose location
was not known, and once through node 2. -/
theorem update_node_location_closed_way :
    Way.update_node_location
        ⟨[⟨1, Location.undefined⟩, ⟨2, ⟨35, 47⟩⟩, ⟨1, Location.undefined⟩]⟩ ⟨1, ⟨32, 42⟩⟩
        = ⟨[⟨1, ⟨32, 42⟩⟩, ⟨2, ⟨35, 47⟩⟩, ⟨1, ⟨32, 42⟩⟩]⟩
      ∧ Way.update_node_location
          (Way.update_node_location
            ⟨[⟨1, Location.undefined⟩, ⟨2, ⟨35, 47⟩⟩, ⟨1, Location.undefined⟩]⟩
            ⟨1, ⟨32, 42⟩⟩) ⟨1, ⟨32, 42⟩⟩
        = ⟨[⟨1, ⟨32, 42⟩⟩, ⟨2, ⟨35, 47⟩⟩, ⟨1, ⟨32, 42⟩⟩]⟩ := by
  decide

/-- C24: for every id of the `int64_t` range other than -2^63, `positive_ref` is the
absolute value of the id as an unsigned 64-bit number; a node reference with id `r`
and one with id `-r` have the same `positive_ref`, and for an id that is not negative
`positive_ref` is the id. -/
theorem positive_ref_abs (r : Int) (l l' : Location) (h0 : -9223372036854775808 < r)
    (h1 : r < 9223372036854775808) :
    NodeRef.positive_ref ⟨r, l⟩ = |r|
      ∧ 0 ≤ NodeRef.positive_ref ⟨r, l⟩
      ∧ NodeRef.positive_ref ⟨r, l⟩ < 18446744073709551616
      ∧ NodeRef.positive_ref ⟨r, l⟩ = NodeRef.positive_ref ⟨-r, l'⟩
      ∧ (0 ≤ r → NodeRef.positive_ref ⟨r, l⟩ = NodeRef.ref ⟨r, l⟩) := by
  have key : ∀ z : Int, -9223372036854775808 < z → z < 9223372036854775808 →
      ∀ loc, NodeRef.positive_ref ⟨z, loc⟩ = |z| := by
    intro z hz0 hz1 loc
    unfold NodeRef.positive_ref
    by_cases h : z < 0
    · simp only [h, if_true]
      rw [int64_of_range _ (by omega) (by omega), abs_of_neg h]
      omega
    · simp only [h, if_false]
      rw [abs_of_nonneg (by omega)]
      omega
  have ha := key r h0 h1 l
  have hb := key (-r) (by omega) (by omega) l'
  refine ⟨ha, ?_, ?_, ?_, fun hr => ?_⟩
  · rw [ha]
    exact abs_nonneg r
  · rw [ha]
    rcases abs_cases r with ⟨h, _⟩ | ⟨h, _⟩ <;> omega
  · rw [ha, hb, abs_neg]
  · rw [ha, abs_of_nonneg hr]
    rfl

/-- C24 at a concrete input: the ids 17 and -17. -/
theorem positive_ref_abs_witness :
    NodeRef.positive_ref ⟨-17, ⟨32, 42⟩⟩ = |(-17 : Int)|
      ∧ 0 ≤ NodeRef.positive_ref ⟨-17, ⟨32, 42⟩⟩
      ∧ NodeRef.positive_ref ⟨-17, ⟨32, 42⟩⟩ < 18446744073709551616
      ∧ NodeRef.positive_ref ⟨-17, ⟨32, 42⟩⟩ = NodeRef.positive_ref ⟨- -17, ⟨35, 47⟩⟩
      ∧ (0 ≤ (-17 : Int) → NodeRef.positive_ref ⟨-17, ⟨32, 42⟩⟩
          = NodeRef.ref ⟨-17, ⟨32, 42⟩⟩) :=
  positive_ref_abs (-17) ⟨32, 42⟩ ⟨35, 47⟩ (by decide) (by decide)

end osmium
